import Mathlib

/-!
Verification of the VisionSuit GPU-worker agent (`gpuworker/agent/app/`)
against its natural-language specification.  The Python sources are shallowly
embedded: JSON/Python values become the inductive `PyVal`, Python dicts become
ordered association lists (Python dicts preserve insertion order and have
unique keys), machine floats become exact rationals, and fallible code returns
`Option`/`Except`.  Every definition mirrors one function of the source tree;
the doc comment of each definition names the function it embeds.
-/

namespace VisionSuit

/-- Python/JSON values as the agent manipulates them.  Python `bool` is kept
separate from `int` even though `bool` subclasses `int`; the embedded
operations treat `vBool` exactly as Python treats a bool used as an int.
Floats are modelled as exact rationals (`vFloat`); the non-finite floats are
handled separately where the source explicitly checks `isfinite`. -/
inductive PyVal where
  | vNone
  | vBool (b : Bool)
  | vInt (n : Int)
  | vFloat (q : ℚ)
  | vStr (s : String)
  | vList (items : List PyVal)
  | vDict (entries : List (String × PyVal))

/-- `d.get(k)` on a Python dict: the value of the unique binding of `k`
(association lists model insertion-ordered dicts; lookup takes the first
binding, which is the only one for genuine Python dicts). -/
def dget {α : Type} (m : List (String × α)) (k : String) : Option α :=
  match m.find? (fun p => p.1 == k) with
  | some p => some p.2
  | none => none

/-- `d[k] = v` on a Python dict: replace the binding in place when the key is
present (keeping its position), append it otherwise. -/
def dset {α : Type} (m : List (String × α)) (k : String) (v : α) : List (String × α) :=
  match m with
  | [] => [(k, v)]
  | (k', v') :: rest => if k' == k then (k, v) :: rest else (k', v') :: dset rest k v

/-- `d.pop(k, None)` on a Python dict: drop the (unique) binding of `k`. -/
def dpop {α : Type} (m : List (String × α)) (k : String) : List (String × α) :=
  m.eraseP (fun p => p.1 == k)

/-- Python dicts never hold two bindings of the same key; association lists
standing for dicts satisfy this invariant. -/
abbrev NodupKeys {α : Type} (m : List (String × α)) : Prop :=
  (m.map Prod.fst).Nodup

/-- Python truthiness (`bool(x)`) for the embedded values. -/
def pyTruthy : PyVal → Bool
  | .vNone => false
  | .vBool b => b
  | .vInt n => n != 0
  | .vFloat q => q != 0
  | .vStr s => !s.data.isEmpty
  | .vList items => !items.isEmpty
  | .vDict entries => !entries.isEmpty

/-- Decimal digits of a natural number, least significant first; the fuel
argument (any bound `≥ n`) keeps the recursion structural. -/
def natDigitsRev (fuel : Nat) (n : Nat) : List Char :=
  match fuel with
  | 0 => []
  | f + 1 => if n = 0 then [] else Char.ofNat (48 + n % 10) :: natDigitsRev f (n / 10)

/-- Python's `str` of a non-negative int. -/
def natRepr (n : Nat) : String := if n = 0 then "0" else String.mk ((natDigitsRev n n).reverse)

/-- Python's `str` of an int. -/
def intRepr (n : Int) : String := if n < 0 then "-" ++ natRepr n.natAbs else natRepr n.natAbs

/-- Truncation toward zero, Python's `int(x)` on a (finite) float. -/
def ratTrunc (q : ℚ) : Int := Int.tdiv q.num q.den

section Cleanup

/-! ### `GPUAgent._cleanup` (agent.py) — claim C3 -/

/-- The two configuration flags `_cleanup` consults
(`config.cleanup.delete_downloaded_models` / `delete_downloaded_loras`). -/
structure CleanupFlags where
  delete_downloaded_models : Bool
  delete_downloaded_loras : Bool

/-- The facets of a `ResolvedAsset` that `_cleanup` reads: the asset's
`cacheStrategy` string, the `downloaded` and `link_created` run flags, and
whether `symlink_path.is_symlink()` holds at cleanup time. -/
structure CleanupAsset where
  cacheStrategy : String
  downloaded : Bool
  link_created : Bool
  link_is_symlink : Bool

/-- The base-model half of `_cleanup`: which of (cache file, visible link) are
unlinked.  Mirrors agent.py lines 1706-1721: both removals sit under
`delete_downloaded_models`; the cache file goes iff the strategy is not
"persistent" and the file was downloaded this run; the link goes iff the
strategy is not "persistent", the link was created this run and the path is
still a symlink. -/
def cleanup_base_model (flags : CleanupFlags) (m : CleanupAsset) : Bool × Bool :=
  if flags.delete_downloaded_models then
    ((m.cacheStrategy != "persistent") && m.downloaded,
     (m.cacheStrategy != "persistent") && m.link_created && m.link_is_symlink)
  else (false, false)

/-- The per-LoRA body of `_cleanup`'s loop (agent.py lines 1724-1737):
persistent entries are skipped whole; otherwise the cache file goes iff
`downloaded`, the link iff `link_created` and still a symlink. -/
def cleanup_lora_entry (flags : CleanupFlags) (e : CleanupAsset) : Bool × Bool :=
  if flags.delete_downloaded_loras then
    if e.cacheStrategy == "persistent" then (false, false)
    else (e.downloaded, e.link_created && e.link_is_symlink)
  else (false, false)

/-- `GPUAgent._cleanup` (agent.py lines 1705-1737) as the removal decisions it
takes: for the optional base model and for each resolved LoRA, whether the
cache file and the visible link are unlinked. -/
def cleanup (flags : CleanupFlags) (base : Option CleanupAsset) (loras : List CleanupAsset) :
    Option (Bool × Bool) × List (Bool × Bool) :=
  (base.map (cleanup_base_model flags), loras.map (cleanup_lora_entry flags))

end Cleanup

section Seed

/-! ### `GPUAgent._normalize_seed_value` / `_generate_seed` (agent.py) — claim C6 -/

/-- The envelope's `parameters.seed` as `_normalize_seed_value` classifies it:
a Python int (or bool, which subclasses int), a finite float, a non-finite
float (`isfinite` fails), an absent value (`None`), or any non-numeric
value. -/
inductive SeedValue where
  | intVal (n : Int)
  | boolVal (b : Bool)
  | floatVal (q : ℚ)
  | floatNonFinite
  | absent
  | nonNumeric

/-- Python `int(b)` of a bool. -/
def pyIntOfBool (b : Bool) : Int := if b then 1 else 0

/-- `GPUAgent._generate_seed` (agent.py line 1125):
`secrets.randbelow(1_000_000_000)`.  The cryptographic draw is modelled as a
`Fin 1000000000` parameter, which is precisely `randbelow`'s contract (a value
in `[0, 10^9)`). -/
def generate_seed (draw : Fin 1000000000) : Nat := draw.val

/-- `GPUAgent._normalize_seed_value` (agent.py lines 1128-1132): a finite
numeric seed becomes `abs(int(value)) % 1_000_000_000`; everything else is
replaced by a fresh `_generate_seed` draw. -/
def normalize_seed_value (v : SeedValue) (draw : Fin 1000000000) : Nat :=
  match v with
  | .intVal n => n.natAbs % 1000000000
  | .boolVal b => (pyIntOfBool b).natAbs % 1000000000
  | .floatVal q => (ratTrunc q).natAbs % 1000000000
  | .floatNonFinite => generate_seed draw
  | .absent => generate_seed draw
  | .nonNumeric => generate_seed draw

end Seed

section NodeErrors

/-! ### `GPUAgent._extract_node_errors` (agent.py) — claim C8 -/

/-- Code-point length of a string (`len` in Python counts code points). -/
def pyLen (s : String) : Nat := s.data.length

/-- `text[:n]` in Python: the first `n` code points. -/
def pyTake (s : String) (n : Nat) : String := String.mk (s.data.take n)

/-- Python's `str(x)` for the scalar values that can reach the fallback branch
of `_extract_node_errors` (dicts and lists are returned earlier, `None`
returns earlier still).  A float's `str` is Python's shortest round-trip
decimal; it is modelled as a numerator/denominator rendering, which the
truncation behaviour under scrutiny does not depend on. -/
def pyStr : PyVal → String
  | .vStr s => s
  | .vNone => "None"
  | .vBool b => if b then "True" else "False"
  | .vInt n => intRepr n
  | .vFloat q => intRepr q.num ++ "/" ++ natRepr q.den
  | .vList _ => ""
  | .vDict _ => ""

/-- `GPUAgent._extract_node_errors` (agent.py lines 2064-2078).  A falsy
history (`None` or an empty dict) yields nothing; otherwise
`history.get("status")` is consulted when history is a dict;
`status.get("node_errors") or status.get("nodeErrors")` picks the payload
(the Python `or` falls through on a falsy first operand); a `None` payload
yields nothing; a dict or list payload is attached verbatim; any other
payload is stringified and, when longer than 4096 code points, cut to its
first 4093 code points (`f"{text[:4093]}"` — note: no marker is appended),
then wrapped as `{"message": text}`. -/
def extract_node_errors (history : PyVal) : Option PyVal :=
  if pyTruthy history = false then none
  else
    let status : PyVal :=
      match history with
      | .vDict m => (dget m "status").getD .vNone
      | _ => .vNone
    let node_errors : PyVal :=
      match status with
      | .vDict sm =>
        let first := (dget sm "node_errors").getD .vNone
        if pyTruthy first then first else (dget sm "nodeErrors").getD .vNone
      | _ => .vNone
    match node_errors with
    | .vNone => none
    | .vDict entries => some (.vDict entries)
    | .vList items => some (.vList items)
    | other =>
      let text := pyStr other
      let text := if 4096 < pyLen text then pyTake text 4093 else text
      some (.vDict [("message", .vStr text)])

/-- A renderer history whose `status.node_errors` is a 4097-character string:
the smallest shape exercising the oversized-payload branch. -/
def oversizedNodeErrorHistory : PyVal :=
  .vDict [("status", .vDict [("node_errors", .vStr (String.mk (List.replicate 4097 'x')))])]

end NodeErrors

section OutputFiles

/-! ### `extract_output_files` (comfyui.py) — claim C9 -/

/-- `extract_output_files` (comfyui.py lines 235-264).  Walks
`history["outputs"]` (default `{}`); when `expected_node_ids` is a non-empty
iterable, only nodes whose stringified id is among them contribute; each dict
node's `images` list (default `[]`, skipped when not a list) is scanned and
every dict image with a truthy `filename` contributes the tuple
`(filename, subfolder or "", type)` — `subfolder` defaults to `""`, `type`
defaults to `"output"`.  The returned tuples carry three components; no node
id is included. -/
def extract_output_files (history : List (String × PyVal))
    (expected_node_ids : Option (List String)) : List (PyVal × PyVal × PyVal) :=
  let outputs := (dget history "outputs").getD (.vDict [])
  let allowed_ids : Option (List String) :=
    match expected_node_ids with
    | some ids => if ids.isEmpty then none else some ids
    | none => none
  let iterable : List (String × PyVal) :=
    match outputs with
    | .vDict m => m
    | _ => []
  iterable.foldl
    (fun acc p =>
      let skip : Bool :=
        match allowed_ids with
        | some ids => !ids.contains p.1
        | none => false
      if skip then acc
      else
        match p.2 with
        | .vDict nm =>
          match (dget nm "images").getD (.vList []) with
          | .vList imgs =>
            acc ++ imgs.filterMap (fun img =>
              match img with
              | .vDict im =>
                let filename := (dget im "filename").getD .vNone
                let subfolder := (dget im "subfolder").getD (.vStr "")
                let image_type := (dget im "type").getD (.vStr "output")
                if pyTruthy filename then
                  some (filename, (if pyTruthy subfolder then subfolder else .vStr ""),
                    image_type)
                else none
              | _ => none)
          | _ => acc
        | _ => acc)
    []

/-- A renderer history with one save node (id "9") reporting one image. -/
def singleImageHistory : List (String × PyVal) :=
  [("outputs", .vDict [("9", .vDict [("images",
    .vList [.vDict [("filename", .vStr "img.png")]])])])]

end OutputFiles

section ParameterContext

/-! ### `GPUAgent._validate_parameter_context` and its coercions (agent.py) — claim C4 -/

/-- ASCII whitespace trim on both ends (Python `str.strip()`; Python also
strips the rarer Unicode whitespace, which does not occur in the agent's
parameter strings). -/
def trimChars (cs : List Char) : List Char :=
  ((cs.dropWhile Char.isWhitespace).reverse.dropWhile Char.isWhitespace).reverse

/-- Python `value.strip()` on a string. -/
def pyStrip (s : String) : String := String.mk (trimChars s.data)

/-- The natural number a digit run denotes. -/
def digitsToNat (ds : List Char) : Nat := ds.foldl (fun a c => a * 10 + (c.toNat - 48)) 0

/-- `10^k` for an integer exponent. -/
def pow10 (k : Int) : ℚ :=
  if 0 ≤ k then ((10 : ℚ) ^ k.toNat) else 1 / ((10 : ℚ) ^ (-k).toNat)

/-- Python `float(str)` on the decimal forms
`[ws] [+|-] digits [. digits] [(e|E) [+|-] digits] [ws]` (at least one
mantissa digit).  CPython additionally accepts digit-group underscores and
the `inf`/`infinity`/`nan` words; the latter are discarded by the explicit
`isfinite` check in `_as_float` anyway (modelled as a parse failure here), and
underscored literals do not occur in the agent's inputs.  The parsed value is
exact; CPython rounds it to the nearest double. -/
def pyParseFloat (s : String) : Option ℚ :=
  let cs := trimChars s.data
  let sgncs : ℚ × List Char :=
    match cs with
    | '+' :: r => (1, r)
    | '-' :: r => (-1, r)
    | _ => (1, cs)
  let sgn := sgncs.1
  let cs1 := sgncs.2
  let ip := cs1.takeWhile Char.isDigit
  let cs2 := cs1.dropWhile Char.isDigit
  let fpcs : List Char × List Char :=
    match cs2 with
    | '.' :: r => (r.takeWhile Char.isDigit, r.dropWhile Char.isDigit)
    | _ => ([], cs2)
  let fp := fpcs.1
  let cs3 := fpcs.2
  if ip.isEmpty && fp.isEmpty then none
  else
    let mant : ℚ := (digitsToNat ip : ℚ) + (digitsToNat fp : ℚ) / ((10 : ℚ) ^ fp.length)
    match cs3 with
    | [] => some (sgn * mant)
    | c :: r =>
      if c = 'e' ∨ c = 'E' then
        let esgnr : Int × List Char :=
          match r with
          | '+' :: rr => (1, rr)
          | '-' :: rr => (-1, rr)
          | _ => (1, r)
        let ed := esgnr.2.takeWhile Char.isDigit
        let rest := esgnr.2.dropWhile Char.isDigit
        if ed.isEmpty || !rest.isEmpty then none
        else some (sgn * mant * pow10 (esgnr.1 * (digitsToNat ed : Int)))
      else none

/-- `GPUAgent._as_float` (agent.py lines 1625-1637): ints, bools (Python bools
are ints) and finite floats coerce; strings go through `float(str)`; anything
else — and any non-finite result — yields `None`. -/
def as_float : PyVal → Option ℚ
  | .vInt n => some (n : ℚ)
  | .vBool b => some (if b then 1 else 0)
  | .vFloat q => some q
  | .vStr s => pyParseFloat s
  | _ => none

/-- Floor of a rational (`den` is positive, so integer floor-division of `num`
by `den` is the floor). -/
def qfloor (q : ℚ) : Int := Int.fdiv q.num q.den

/-- Round to the nearest integer, ties to even — Python's `round(x)` on a
float. -/
def roundHalfEven (q : ℚ) : Int :=
  let f : Int := qfloor q
  let r : ℚ := q - (f : ℚ)
  if r < 1 / 2 then f
  else if 1 / 2 < r then f + 1
  else if f % 2 = 0 then f else f + 1

/-- Python's `round(x, 2)` on our exact-rational floats: half-even rounding at
two decimal places. -/
def pyRound2 (q : ℚ) : ℚ := (roundHalfEven (q * 100) : ℚ) / 100

/-- `GPUAgent._coerce_positive_int` (agent.py lines 1104-1111): `_as_float`,
then `int(round(candidate))`, kept only when strictly positive. -/
def coerce_positive_int (v : PyVal) : Option Int :=
  match as_float v with
  | none => none
  | some q =>
    let normalized := roundHalfEven q
    if 0 < normalized then some normalized else none

/-- A resolved parameter context: the mutable `context` dict of
`_build_parameter_context`. -/
abbrev Ctx : Type := List (String × PyVal)

/-- One iteration of the `for key in ("steps", "width", "height")` loop of
`_validate_parameter_context` (agent.py lines 1229-1234): a coercible value
is written back as the coerced int, otherwise the key joins the error
list. -/
def checkPosIntKey (k : String) (st : List String × Ctx) : List String × Ctx :=
  match coerce_positive_int ((dget st.2 k).getD .vNone) with
  | some n => (st.1, dset st.2 k (.vInt n))
  | none => (st.1 ++ [k], st.2)

/-- The `cfg_scale` check of `_validate_parameter_context` (agent.py lines
1236-1240): `_as_float`, must be positive, written back rounded to two
decimal places. -/
def checkCfgScale (st : List String × Ctx) : List String × Ctx :=
  match as_float ((dget st.2 "cfg_scale").getD .vNone) with
  | some q =>
    if 0 < q then (st.1, dset st.2 "cfg_scale" (.vFloat (pyRound2 q)))
    else (st.1 ++ ["cfg_scale"], st.2)
  | none => (st.1 ++ ["cfg_scale"], st.2)

/-- One iteration of the `for key in ("sampler", "scheduler")` loop of
`_validate_parameter_context` (agent.py lines 1242-1249): the value must be a
string whose trim is non-empty; the trimmed string is written back. -/
def checkTrimKey (k : String) (st : List String × Ctx) : List String × Ctx :=
  match (dget st.2 k).getD .vNone with
  | .vStr s =>
    if (pyStrip s).data.isEmpty then (st.1 ++ [k], st.2)
    else (st.1, dset st.2 k (.vStr (pyStrip s)))
  | _ => (st.1 ++ [k], st.2)

/-- Insert into a ≤-sorted list of strings (code-point lexicographic order,
Python's `sorted` on these ASCII keys). -/
def insertStr (x : String) : List String → List String
  | [] => [x]
  | y :: ys => if x ≤ y then x :: y :: ys else y :: insertStr x ys

/-- Python `sorted` on a list of strings. -/
def sortStrs : List String → List String
  | [] => []
  | x :: xs => insertStr x (sortStrs xs)

/-- `GPUAgent._validate_parameter_context` (agent.py lines 1226-1255): the six
checks run in source order, mutating the context in place; when any failed,
one `ValidationFailure` is raised whose message joins the sorted offending
keys; otherwise the mutated context stands. -/
def validate_parameter_context (ctx : Ctx) : Except String Ctx :=
  let st1 := checkPosIntKey "steps" ([], ctx)
  let st2 := checkPosIntKey "width" st1
  let st3 := checkPosIntKey "height" st2
  let st4 := checkCfgScale st3
  let st5 := checkTrimKey "sampler" st4
  let st6 := checkTrimKey "scheduler" st5
  if st6.1.isEmpty then .ok st6.2
  else .error ("Missing or invalid required workflow parameters: "
    ++ String.intercalate ", " (sortStrs st6.1))

/-- Does the value coerce to a positive int (the pass condition of the
steps/width/height checks)? -/
def pos_int_ok (v : PyVal) : Bool := (coerce_positive_int v).isSome

/-- Does the value coerce to a positive number (the pass condition of the
`cfg_scale` check)? -/
def cfg_scale_ok (v : PyVal) : Bool :=
  match as_float v with
  | some q => decide (0 < q)
  | none => false

/-- Is the value a string with a non-empty trim (the pass condition of the
sampler/scheduler checks)? -/
def trimmed_str_ok (v : PyVal) : Bool :=
  match v with
  | .vStr s => !(pyStrip s).data.isEmpty
  | _ => false

/-- The offending keys of a resolved parameter context, in the order the
source accumulates them. -/
def context_offenders (ctx : Ctx) : List String :=
  (if pos_int_ok ((dget ctx "steps").getD .vNone) then [] else ["steps"])
  ++ (if pos_int_ok ((dget ctx "width").getD .vNone) then [] else ["width"])
  ++ (if pos_int_ok ((dget ctx "height").getD .vNone) then [] else ["height"])
  ++ (if cfg_scale_ok ((dget ctx "cfg_scale").getD .vNone) then [] else ["cfg_scale"])
  ++ (if trimmed_str_ok ((dget ctx "sampler").getD .vNone) then [] else ["sampler"])
  ++ (if trimmed_str_ok ((dget ctx "scheduler").getD .vNone) then [] else ["scheduler"])

end ParameterContext

section UploadKeys

/-! ### `GPUAgent._upload_outputs` destination keys (agent.py) — claim C7 -/

/-- The final path component on POSIX: the text after the last "/". -/
def basenamePosix (s : String) : String :=
  String.mk ((s.data.reverse.takeWhile (fun c => !(c == '/'))).reverse)

/-- Index of the last occurrence of `c` (Python `str.rfind`). -/
def rfindChar (cs : List Char) (c : Char) : Option Nat :=
  match cs.reverse.findIdx? (· = c) with
  | some j => some (cs.length - 1 - j)
  | none => none

/-- `pathlib.PurePath(filename).suffix`: on the final path component `name`,
`name[i:]` where `i = name.rfind('.')` when `0 < i < len(name) - 1`, else the
empty string (so `".bashrc"`, `"name."` and dot-free names have no
suffix). -/
def path_suffix (filename : String) : String :=
  let name := basenamePosix filename
  let cs := name.data
  match rfindChar cs '.' with
  | some i => if 0 < i ∧ i < cs.length - 1 then String.mk (cs.drop i) else ""
  | none => ""

/-- Python's `f"{n:02d}"` for a non-negative int: zero-padded to width two. -/
def fmt02 (n : Nat) : String := if n < 10 then "0" ++ natRepr n else natRepr n

/-- One renderer-reported output image as `_upload_outputs` consumes it:
the fields of `OutputImage` the loop reads, plus whether
`(outputs/<subfolder>/<filename>).exists()` holds. -/
structure UploadImage where
  node_id : String
  filename : String
  subfolder : String
  image_type : String
  exists_on_disk : Bool

/-- The upload loop of `GPUAgent._upload_outputs` (agent.py lines 1660-1683)
restricted to the destination keys it produces: `enumerate(outputs, start=1)`
walks the renderer-reported list — an image missing on disk is skipped but
still consumes its index — and each uploaded image gets the key
`f"comfy-outputs/{job.jobId}/{index:02d}_{seed_value}{ext}"` with
`ext = Path(image.filename).suffix or ".png"`. -/
def upload_keys_from (jobId : String) (seed_value : String) :
    Nat → List UploadImage → List String
  | _, [] => []
  | index, image :: rest =>
    if image.exists_on_disk then
      ("comfy-outputs/" ++ jobId ++ "/" ++ fmt02 index ++ "_" ++ seed_value ++
        (if path_suffix image.filename = "" then ".png" else path_suffix image.filename))
        :: upload_keys_from jobId seed_value (index + 1) rest
    else upload_keys_from jobId seed_value (index + 1) rest

/-- The destination keys of one job's upload run.  `seed_value` is
`str(resolved_params["seed"])`: the resolved seed, a natural number below
`10^9` by the time uploads happen (claim C6). -/
def upload_keys (jobId : String) (seed : Nat) (outputs : List UploadImage) : List String :=
  upload_keys_from jobId (natRepr seed) 1 outputs

end UploadKeys

section RequestCancel

/-! ### `GPUAgent.request_cancel` (agent.py) — claim C10 -/

/-- The process-wide `CancellationHandle` as `request_cancel` sees it: the
registered token and whether `handle.event` has already been set. -/
structure CancelHandle where
  token : String
  event_set : Bool

/-- The agent state `request_cancel` reads and writes: the optional active
handle, the job's append-only event log, the runtime heartbeat counter, the
status heartbeats emitted so far (phase marker and sequence number), and
whether the job configured a status callback (`job.callbacks.status`). -/
structure CancelAgentState where
  handle : Option CancelHandle
  log : List String
  heartbeat_seq : Nat
  emitted : List (String × Nat)
  has_status_cb : Bool

/-- The `_emit_status(..., progress={"phase": "cancelling"})` call inside
`request_cancel`: when a status callback is configured the runtime heartbeat
counter is bumped and the heartbeat is emitted with the new sequence number;
without one, `_emit_status` returns before touching the counter
(agent.py lines 1759-1769). -/
def emit_cancelling_status (s : CancelAgentState) : CancelAgentState :=
  if s.has_status_cb then
    { s with
      heartbeat_seq := s.heartbeat_seq + 1,
      emitted := s.emitted ++ [("cancelling", s.heartbeat_seq + 1)] }
  else s

/-- `GPUAgent.request_cancel` (agent.py lines 220-238).  No active handle, an
empty token or a token mismatch returns `False` and changes nothing.  On a
match: only when the signal is not yet set does the agent log
`cancel_requested`, set the signal and emit the best-effort "cancelling"
heartbeat; the call returns `True` either way. -/
def request_cancel (s : CancelAgentState) (token : String) : Bool × CancelAgentState :=
  match s.handle with
  | none => (false, s)
  | some h =>
    if token = "" then (false, s)
    else if h.token ≠ token then (false, s)
    else if h.event_set then (true, s)
    else
      let s1 : CancelAgentState :=
        { s with
          handle := some { h with event_set := true },
          log := s.log ++ ["cancel_requested"] }
      (true, emit_cancelling_status s1)

end RequestCancel

section LoraChain

/-! ### `GPUAgent._apply_lora_chain` and helpers (agent.py) — claims C1, C2 -/

/-- A workflow graph as the loader returns it: a JSON mapping from string
node ids to node records. -/
abbrev Workflow : Type := List (String × PyVal)

/-- `assets.normalize_name`: `os.path.basename(str(name or "").strip())`
(POSIX basename of the whitespace-trimmed name; the call sites pass
strings). -/
def normalize_name (s : String) : String := basenamePosix (pyStrip s)

/-- ASCII lowercasing (`str.lower()`; the class-type names involved are
ASCII). -/
def lowerChar (c : Char) : Char :=
  if 'A' ≤ c ∧ c ≤ 'Z' then Char.ofNat (c.toNat + 32) else c

/-- `str.lower()` on an ASCII string. -/
def strLower (s : String) : String := String.mk (s.data.map lowerChar)

/-- Does a workflow node declare `class_type` "LoraLoader"?  The source
computes `str(node.get("class_type") or "").lower() == "loraloader"` on dict
nodes (agent.py lines 1389-1393); that holds exactly when the value is the
string "LoraLoader" up to case, since `str()` of any non-string JSON value
(None, bool, number, list, dict) never spells "loraloader". -/
def isLoraLoaderNode : PyVal → Bool
  | .vDict fields =>
    (match dget fields "class_type" with
     | some (.vStr s) => strLower s == "loraloader"
     | _ => false)
  | _ => false

/-- All-ASCII-digits test: `str.isdigit` on the agent's node ids.  (Python's
`isdigit` also accepts some non-ASCII digit characters, on which the guarded
`int()` would then raise; such ids do not occur.) -/
def isDigits (s : String) : Bool := !s.data.isEmpty && s.data.all Char.isDigit

/-- The sort key of `_collect_lora_nodes` (agent.py line 1395): `int(key)`
for all-digit ids, 0 otherwise. -/
def loraSortKey (k : String) : Nat := if isDigits k then digitsToNat k.data else 0

/-- Stable insertion into a list sorted by `loraSortKey` (an element inserted
from the left lands before equal-key elements, as Python's stable sort keeps
original order among equals). -/
def insertByKey (x : String × PyVal) : List (String × PyVal) → List (String × PyVal)
  | [] => [x]
  | y :: ys => if loraSortKey x.1 ≤ loraSortKey y.1 then x :: y :: ys else y :: insertByKey x ys

/-- Stable sort by `loraSortKey` (Python's `list.sort(key=...)` is stable; any
stable sort computes the same list). -/
def stableSortByKey : List (String × PyVal) → List (String × PyVal)
  | [] => []
  | x :: xs => insertByKey x (stableSortByKey xs)

/-- `_collect_lora_nodes` (agent.py lines 1387-1396): the dict nodes whose
class type is LoraLoader, as (id, node) pairs in ascending node-id order
(non-numeric ids count as 0; ties keep insertion order). -/
def collect_lora_nodes (workflow : Workflow) : List (String × PyVal) :=
  stableSortByKey (workflow.filter (fun p => isLoraLoaderNode p.2))

/-- A connection target as `str(target)` renders it: strings verbatim, ints
in decimal, bools as "True"/"False". -/
def pyConnTarget : PyVal → Option String
  | .vStr s => some s
  | .vInt n => some (intRepr n)
  | .vBool b => some (if b then "True" else "False")
  | _ => none

/-- A connection index as `int(index)` coerces it: ints (and bools) verbatim,
finite floats truncated toward zero. -/
def pyConnIndex : PyVal → Option Int
  | .vInt n => some n
  | .vBool b => some (pyIntOfBool b)
  | .vFloat q => some (ratTrunc q)
  | _ => none

/-- `_as_connection_ref` (agent.py lines 1398-1403): a 2-element list whose
first item is a str or int and whose second is an int or float becomes
`(str(target), int(index))`. -/
def as_connection_ref : PyVal → Option (String × Int)
  | .vList [a, b] =>
    (match pyConnTarget a, pyConnIndex b with
     | some t, some i => some (t, i)
     | _, _ => none)
  | _ => none

/-- `inputs.get(key)` fed to `_as_connection_ref` (a missing key gives `None`,
which is no connection). -/
def connOf (o : Option PyVal) : Option (String × Int) :=
  match o with
  | some v => as_connection_ref v
  | none => none

/-- The largest all-digit node id (agent.py lines 1405-1411; the
`isinstance(key, int)` arm is vacuous here because JSON object keys are
strings). -/
def maxDigitKey (workflow : Workflow) : Nat :=
  workflow.foldl (fun acc p => if isDigits p.1 then max acc (digitsToNat p.1.data) else acc) 0

/-- `_allocate_node_id` (agent.py lines 1405-1412): `str(max_id + 1)`. -/
def allocate_node_id (workflow : Workflow) : String := natRepr (maxDigitKey workflow + 1)

/-- The redirect mapping of `_redirect_connections`: per source node id, the
replacement `(target, index)` per output index. -/
abbrev RMap : Type := List (String × List (Int × (String × Int)))

/-- `mapping.get(target, {}).get(index)`. -/
def rmapLookup (mapping : RMap) (target : String) (index : Int) : Option (String × Int) :=
  match dget mapping target with
  | some entries => (entries.find? (fun p => p.1 == index)).map (fun p => p.2)
  | none => none

/-- One input value under `_redirect_connections` (agent.py lines 1428-1436):
a connection whose source is mapped is rewritten to
`[str(replacement[0]), replacement[1]]`; everything else stays. -/
def redirectValue (mapping : RMap) (v : PyVal) : PyVal :=
  match as_connection_ref v with
  | some (target, index) =>
    (match rmapLookup mapping target index with
     | some repl => .vList [.vStr repl.1, .vInt repl.2]
     | none => v)
  | none => v

/-- One node under `_redirect_connections`: dict nodes with a dict `inputs`
get every input value redirected in place; other nodes stay. -/
def redirectNode (mapping : RMap) (node : PyVal) : PyVal :=
  match node with
  | .vDict fields =>
    (match dget fields "inputs" with
     | some (.vDict inps) =>
       .vDict (dset fields "inputs"
         (.vDict (inps.map (fun kv => (kv.1, redirectValue mapping kv.2)))))
     | _ => node)
  | _ => node

/-- `_redirect_connections` (agent.py lines 1414-1436): every node not in
`skip_nodes` has its connection inputs rewritten through the mapping. -/
def redirect_connections (workflow : Workflow) (mapping : RMap) (skip : List String) :
    Workflow :=
  workflow.map (fun p => if skip.contains p.1 then p else (p.1, redirectNode mapping p.2))

/-- One `loras_metadata` entry (a dict: `_extract_lora_metadata` keeps only
dict entries). -/
abbrev MetaEntry : Type := List (String × PyVal)

/-- Does a metadata entry name the target LoRA in one of the six identifying
fields (agent.py lines 1602-1606)? -/
def entryMatchesLora (target_name : String) (e : MetaEntry) : Bool :=
  ["filename", "key", "name", "title", "id", "slug"].any (fun field =>
    match dget e field with
    | some (.vStr v) => normalize_name v == target_name
    | _ => false)

/-- `_match_lora_metadata` (agent.py lines 1596-1607): the first entry naming
the target, else the first entry, else nothing. -/
def match_lora_metadata (target_name : String) (metadata : List MetaEntry) : Option MetaEntry :=
  match metadata.find? (entryMatchesLora target_name) with
  | some e => some e
  | none => metadata.head?

/-- `_extract_strength_value` (agent.py lines 1609-1617): first coercible
among `strength_model`, `strength_clip`, `strength`; a falsy (absent or
empty) payload gives nothing. -/
def extract_strength_value (payload : Option MetaEntry) : Option ℚ :=
  match payload with
  | none => none
  | some e =>
    if e.isEmpty then none
    else
      match as_float ((dget e "strength_model").getD .vNone) with
      | some q => some q
      | none =>
        match as_float ((dget e "strength_clip").getD .vNone) with
        | some q => some q
        | none => as_float ((dget e "strength").getD .vNone)

/-- `_normalize_strength` (agent.py lines 1619-1623): clamp to `[-2, 2]` and
round to two decimals; absent becomes 1.0. -/
def normalize_strength (v : Option ℚ) : ℚ :=
  match v with
  | none => 1
  | some q => pyRound2 (max (-2) (min 2 q))

/-- The strength `_apply_lora_chain` computes for one placed LoRA. -/
def strength_for (name : String) (metadata : List MetaEntry) : ℚ :=
  normalize_strength (extract_strength_value (match_lora_metadata name metadata))

/-- The loop of `_apply_lora_chain` over `loras[1:]` (agent.py lines
1487-1499): each further LoRA clones the prototype under a freshly allocated
id, wires its model/clip to the previous chain node's outputs 0/1, sets
name and strengths, and records the new id.  Returns the final workflow, the
last chain id, the list of new ids (in order) and the applied tail. -/
def chain_extend (protoFields protoInputs : List (String × PyVal)) (metadata : List MetaEntry) :
    Workflow → String → List String → Workflow × String × List String × List (String × ℚ)
  | workflow, last, [] => (workflow, last, [], [])
  | workflow, last, name :: rest =>
    let strength := strength_for name metadata
    let new_id := allocate_node_id workflow
    let newInputs := dset (dset (dset (dset (dset protoInputs
      "model" (.vList [.vStr last, .vInt 0]))
      "clip" (.vList [.vStr last, .vInt 1]))
      "lora_name" (.vStr name))
      "strength_model" (.vFloat strength))
      "strength_clip" (.vFloat strength)
    let newFields := dset (dset protoFields "inputs" (.vDict newInputs)) "id"
      (.vInt (digitsToNat new_id.data))
    let wf2 := dset workflow new_id (.vDict newFields)
    let res := chain_extend protoFields protoInputs metadata wf2 new_id rest
    (res.1, res.2.1, new_id :: res.2.2.1, (name, strength) :: res.2.2.2)

/-- The body of `_apply_lora_chain` after the template and its inputs dict
are in hand (agent.py lines 1450-1504).  `tfields`/`tinputs` are the
template node's fields and inputs as they stand in `workflow` (after the
`setdefault`). -/
def applyChainCore (workflow : Workflow) (template_id : String)
    (tfields tinputs : List (String × PyVal)) (extras : List (String × PyVal))
    (loras : List String) (metadata : List MetaEntry) :
    Workflow × List (String × ℚ) :=
  match connOf (dget tinputs "model"), connOf (dget tinputs "clip") with
  | some um, some uc =>
    let wfE := extras.foldl (fun w p => dpop w p.1) workflow
    let redirectExtras : RMap := extras.map (fun p => (p.1, [(0, um), (1, uc)]))
    (match loras with
     | [] =>
       let wfT := dpop wfE template_id
       let mapping := redirectExtras ++ [(template_id, [(0, um), (1, uc)])]
       (redirect_connections wfT mapping [], [])
     | name0 :: rest =>
       let strength0 := strength_for name0 metadata
       let newTInputs := dset (dset (dset (dset (dset tinputs
         "model" (.vList [.vStr um.1, .vInt um.2]))
         "clip" (.vList [.vStr uc.1, .vInt uc.2]))
         "lora_name" (.vStr name0))
         "strength_model" (.vFloat strength0))
         "strength_clip" (.vFloat strength0)
       let wf0 := dset wfE template_id (.vDict (dset tfields "inputs" (.vDict newTInputs)))
       let res := chain_extend tfields tinputs metadata wf0 template_id rest
       let keep := template_id :: res.2.2.1
       let mapping := redirectExtras
         ++ [(template_id, [(0, (res.2.1, 0)), (1, (res.2.1, 1))])]
       (redirect_connections res.1 mapping keep, (name0, strength0) :: res.2.2.2))
  | _, _ => (workflow, [])

/-- `GPUAgent._apply_lora_chain` (agent.py lines 1438-1504).  Takes the
workflow, the resolved LoRAs' visible names (`asset.comfy_name` is all the
loop reads of each asset) and the `loras_metadata` entries of the resolved
parameters.  `none` models the `AttributeError` Python raises when the
template's `"inputs"` value exists but is not a dict (`setdefault` then
returns a non-dict and `.get` crashes); the unreachable non-dict template
arm (collected nodes are dicts by construction) also maps to `none`. -/
def apply_lora_chain (workflow : Workflow) (loras : List String)
    (metadata : List MetaEntry) : Option (Workflow × List (String × ℚ)) :=
  match collect_lora_nodes workflow with
  | [] => some (workflow, [])
  | (template_id, template_node) :: extras =>
    (match template_node with
     | .vDict tfields =>
       (match dget tfields "inputs" with
        | some (.vDict tinputs) =>
          some (applyChainCore workflow template_id tfields tinputs extras loras metadata)
        | some _ => none
        | none =>
          let tfields2 := dset tfields "inputs" (.vDict [])
          some (applyChainCore (dset workflow template_id (.vDict tfields2))
            template_id tfields2 [] extras loras metadata)
        )
     | _ => none)

/-- The number of LoraLoader nodes of a workflow. -/
def countLoraNodes (workflow : Workflow) : Nat :=
  (workflow.filter (fun p => isLoraLoaderNode p.2)).length

/-- The input value at `workflow[nid].inputs[k]`, when all three levels
exist. -/
def nodeInputValue (workflow : Workflow) (nid k : String) : Option PyVal :=
  match dget workflow nid with
  | some (.vDict fields) =>
    (match dget fields "inputs" with
     | some (.vDict inps) => dget inps k
     | _ => none)
  | _ => none

/-- The ids `prev :: ids` form a LoRA chain in `workflow`: each listed node's
`model` and `clip` inputs are wired to the previous id's outputs 0 and 1. -/
def chainLinked (workflow : Workflow) : String → List String → Prop
  | _, [] => True
  | prev, cur :: rest =>
    nodeInputValue workflow cur "model" = some (.vList [.vStr prev, .vInt 0])
    ∧ nodeInputValue workflow cur "clip" = some (.vList [.vStr prev, .vInt 1])
    ∧ chainLinked workflow cur rest

/-- A three-node demo workflow: checkpoint loader "1", LoraLoader template
"4" wired to it, sampler "7" consuming the LoRA's model output. -/
def demoTemplateInputs : List (String × PyVal) :=
  [("model", .vList [.vStr "1", .vInt 0]), ("clip", .vList [.vStr "1", .vInt 1])]

/-- The demo template node's fields. -/
def demoTemplateFields : List (String × PyVal) :=
  [("class_type", .vStr "LoraLoader"), ("inputs", .vDict demoTemplateInputs)]

/-- The demo workflow. -/
def loraChainDemoWorkflow : Workflow :=
  [("1", .vDict [("class_type", .vStr "CheckpointLoaderSimple"), ("inputs", .vDict [])]),
   ("4", .vDict demoTemplateFields),
   ("7", .vDict [("class_type", .vStr "KSampler"),
     ("inputs", .vDict [("model", .vList [.vStr "4", .vInt 0])])])]

end LoraChain

/-- The value of a little-endian digit list. -/
def valRev : List Char → Nat
  | [] => 0
  | c :: cs => (c.toNat - 48) + 10 * valRev cs

section CallbackProtocol

/-! ### The callback protocol of `GPUAgent._execute` (agent.py) — claim C5 -/

/-- Which callback URLs the envelope configured (`job.callbacks.status`,
`.completion`, `.failure`). -/
structure CbCfg where
  hasStatus : Bool
  hasCompletion : Bool
  hasFailure : Bool

/-- One callback delivery of a job, in the order the execution task posts
them.  The failure endpoint carries both the FAILED and the CANCELED
terminal. -/
inductive CbEvent where
  | statusEv (state : String) (seq : Nat)
  | completionPost
  | failurePost

/-- How far the job got and how it ended: the abstraction of the
renderer / object-store / validation outcomes `_execute` branches on. -/
inductive ExecOutcome where
  | preQueuedFailure
  | submitFailure
  | waitFailure
  | cancelled (lateHeartbeat : Bool)
  | uploadFailure
  | success

/-- `_emit_status` (agent.py lines 1749-1794): with a status callback
configured, the runtime heartbeat counter is bumped and one status event with
the new sequence number is posted; without one, `_emit_status` returns before
touching the counter. -/
def emitStatusTr (cfg : CbCfg) (seq : Nat) (state : String) : List CbEvent × Nat :=
  if cfg.hasStatus then ([.statusEv state (seq + 1)], seq + 1) else ([], seq)

/-- `_emit_completion` (agent.py lines 1796-1851): a SUCCESS status heartbeat,
then — when a completion callback is configured — exactly one completion
post. -/
def emitCompletionTr (cfg : CbCfg) (seq : Nat) : List CbEvent × Nat :=
  let st := emitStatusTr cfg seq "SUCCESS"
  (st.1 ++ (if cfg.hasCompletion then [.completionPost] else []), st.2)

/-- `_emit_failure` (agent.py lines 1888-1945): nothing at all without a
failure callback; otherwise a FAILED status heartbeat followed by exactly one
failure post. -/
def emitFailureTr (cfg : CbCfg) (seq : Nat) : List CbEvent × Nat :=
  if cfg.hasFailure then
    let st := emitStatusTr cfg seq "FAILED"
    (st.1 ++ [.failurePost], st.2)
  else ([], seq)

/-- `_emit_cancellation` (agent.py lines 1853-1886): a CANCELED status
heartbeat, then — with a failure callback — one CANCELED terminal post on the
failure endpoint. -/
def emitCancellationTr (cfg : CbCfg) (seq : Nat) : List CbEvent × Nat :=
  let st := emitStatusTr cfg seq "CANCELED"
  (st.1 ++ (if cfg.hasFailure then [.failurePost] else []), st.2)

/-- The callback trace of one `_execute` run (agent.py lines 243-421), by
outcome.  The heartbeat counter starts at 0 (`_start_runtime`); QUEUED is
emitted once the workflow is built; RUNNING once the renderer accepted the
graph; the best-effort "cancelling" heartbeat of `request_cancel` (a RUNNING
status) lands while the poll loop runs; UPLOADING precedes extraction and
upload; each terminal path ends with its `_emit_*` call, and nothing of this
job is emitted after it.  Callback posts are modelled as atomic: the trace is
the program order of the single execution task. -/
def execTrace (cfg : CbCfg) (o : ExecOutcome) : List CbEvent :=
  match o with
  | .preQueuedFailure => (emitFailureTr cfg 0).1
  | .submitFailure =>
    let q := emitStatusTr cfg 0 "QUEUED"
    q.1 ++ (emitFailureTr cfg q.2).1
  | .waitFailure =>
    let q := emitStatusTr cfg 0 "QUEUED"
    let r := emitStatusTr cfg q.2 "RUNNING"
    q.1 ++ r.1 ++ (emitFailureTr cfg r.2).1
  | .cancelled hb =>
    let q := emitStatusTr cfg 0 "QUEUED"
    let r := emitStatusTr cfg q.2 "RUNNING"
    let c := if hb then emitStatusTr cfg r.2 "RUNNING" else ([], r.2)
    q.1 ++ r.1 ++ c.1 ++ (emitCancellationTr cfg c.2).1
  | .uploadFailure =>
    let q := emitStatusTr cfg 0 "QUEUED"
    let r := emitStatusTr cfg q.2 "RUNNING"
    let u := emitStatusTr cfg r.2 "UPLOADING"
    q.1 ++ r.1 ++ u.1 ++ (emitFailureTr cfg u.2).1
  | .success =>
    let q := emitStatusTr cfg 0 "QUEUED"
    let r := emitStatusTr cfg q.2 "RUNNING"
    let u := emitStatusTr cfg r.2 "UPLOADING"
    q.1 ++ r.1 ++ u.1 ++ (emitCompletionTr cfg u.2).1

/-- Is the event a (non-terminal) status heartbeat? -/
def isStatusEv : CbEvent → Bool
  | .statusEv _ _ => true
  | _ => false

/-- Is the event a terminal (completion or failure/cancel) post? -/
def isTerminalEv : CbEvent → Bool
  | .statusEv _ _ => false
  | _ => true

/-- The heartbeat sequence numbers of a trace, in emission order. -/
def statusSeqs (tr : List CbEvent) : List Nat :=
  tr.filterMap (fun e =>
    match e with
    | .statusEv _ n => some n
    | _ => none)

/-- Whether the outcome's terminal callback endpoint is configured:
completion for SUCCESS, failure for every failed or cancelled outcome. -/
def terminalConfigured (cfg : CbCfg) : ExecOutcome → Bool
  | .success => cfg.hasCompletion
  | _ => cfg.hasFailure

end CallbackProtocol

/-- Lookup on a non-empty dict: the head binding answers when its key
matches, the tail otherwise. -/
theorem dget_cons {α : Type} (ka : String) (va : α) (rest : List (String × α)) (k : String) :
    dget ((ka, va) :: rest) k = if ka == k then some va else dget rest k := by
  by_cases h : (ka == k) = true
  · rw [if_pos h]
    unfold dget
    rw [List.find?_cons_of_pos _ (by simpa using h)]
  · rw [if_neg (by simpa using h)]
    unfold dget
    rw [List.find?_cons_of_neg _ (by simpa using h)]

/-- The empty dict answers no lookup. -/
theorem dget_nil {α : Type} (k : String) : dget ([] : List (String × α)) k = none := rfl

/-- Looking up the key just written finds the written value. -/
theorem dget_dset_self {α : Type} (m : List (String × α)) (k : String) (v : α) :
    dget (dset m k v) k = some v := by
  induction m with
  | nil =>
    show dget [(k, v)] k = some v
    rw [dget_cons, if_pos (beq_iff_eq.mpr rfl)]
  | cons p rest ih =>
    obtain ⟨ka, va⟩ := p
    show dget (if ka == k then (k, v) :: rest else (ka, va) :: dset rest k v) k = some v
    by_cases h : (ka == k) = true
    · rw [if_pos h, dget_cons, if_pos (beq_iff_eq.mpr rfl)]
    · rw [if_neg h, dget_cons, if_neg h]
      exact ih

/-- Writing one key leaves every other key's binding unchanged. -/
theorem dget_dset_ne {α : Type} (m : List (String × α)) (k k' : String) (v : α)
    (h : ¬ k' = k) : dget (dset m k v) k' = dget m k' := by
  have hkk : ¬ (k == k') = true := fun hb => h (beq_iff_eq.mp hb).symm
  induction m with
  | nil =>
    show dget [(k, v)] k' = none
    rw [dget_cons, if_neg hkk, dget_nil]
  | cons p rest ih =>
    obtain ⟨ka, va⟩ := p
    show dget (if ka == k then (k, v) :: rest else (ka, va) :: dset rest k v) k'
      = dget ((ka, va) :: rest) k'
    by_cases hk : (ka == k) = true
    · have hka : ka = k := beq_iff_eq.mp hk
      have hkak : ¬ (ka == k') = true := fun hb => by
        apply h
        rw [← hka]
        exact (beq_iff_eq.mp hb).symm
      rw [if_pos hk, dget_cons, dget_cons, if_neg hkk, if_neg hkak]
    · rw [if_neg hk, dget_cons, dget_cons, ih]

/-- `_coerce_positive_int` only ever returns positive integers. -/
theorem coerce_positive_int_pos (v : PyVal) (n : Int)
    (h : coerce_positive_int v = some n) : 0 < n := by
  unfold coerce_positive_int at h
  rcases hf : as_float v with _ | q
  · rw [hf] at h
    exact absurd h (by simp)
  · rw [hf] at h
    dsimp only at h
    by_cases hp : 0 < roundHalfEven q
    · rw [if_pos hp] at h
      injection h with h2
      omega
    · rw [if_neg hp] at h
      exact absurd h (by simp)

/-- What one steps/width/height iteration does to the (errors, context)
state. -/
theorem checkPosIntKey_characterize (k : String) (st : List String × Ctx) :
    (checkPosIntKey k st).1
      = st.1 ++ (if pos_int_ok ((dget st.2 k).getD .vNone) then [] else [k])
    ∧ (∀ k', ¬ k' = k → dget (checkPosIntKey k st).2 k' = dget st.2 k')
    ∧ (pos_int_ok ((dget st.2 k).getD .vNone) = true →
        ∃ n : Int, 0 < n ∧ coerce_positive_int ((dget st.2 k).getD .vNone) = some n ∧
          dget (checkPosIntKey k st).2 k = some (.vInt n)) := by
  rcases h : coerce_positive_int ((dget st.2 k).getD .vNone) with _ | n
  · simp [checkPosIntKey, pos_int_ok, h]
  · refine ⟨?_, ?_, ?_⟩
    · simp [checkPosIntKey, pos_int_ok, h]
    · intro k' hk'
      simp only [checkPosIntKey, h]
      exact dget_dset_ne _ _ _ _ hk'
    · intro _
      exact ⟨n, coerce_positive_int_pos _ _ h, rfl,
        by simp only [checkPosIntKey, h]; exact dget_dset_self _ _ _⟩

/-- What the `cfg_scale` check does to the (errors, context) state. -/
theorem checkCfgScale_characterize (st : List String × Ctx) :
    (checkCfgScale st).1
      = st.1 ++ (if cfg_scale_ok ((dget st.2 "cfg_scale").getD .vNone) then []
          else ["cfg_scale"])
    ∧ (∀ k', ¬ k' = "cfg_scale" → dget (checkCfgScale st).2 k' = dget st.2 k')
    ∧ (cfg_scale_ok ((dget st.2 "cfg_scale").getD .vNone) = true →
        ∃ q : ℚ, 0 < q ∧ as_float ((dget st.2 "cfg_scale").getD .vNone) = some q ∧
          dget (checkCfgScale st).2 "cfg_scale" = some (.vFloat (pyRound2 q))) := by
  rcases h : as_float ((dget st.2 "cfg_scale").getD .vNone) with _ | q
  · simp [checkCfgScale, cfg_scale_ok, h]
  · by_cases hq : 0 < q
    · refine ⟨?_, ?_, ?_⟩
      · simp [checkCfgScale, cfg_scale_ok, h, hq]
      · intro k' hk'
        simp only [checkCfgScale, h, hq, if_true]
        exact dget_dset_ne _ _ _ _ hk'
      · intro _
        exact ⟨q, hq, rfl,
          by simp only [checkCfgScale, h, hq, if_true]; exact dget_dset_self _ _ _⟩
    · simp [checkCfgScale, cfg_scale_ok, h, hq]

/-- What one sampler/scheduler iteration does to the (errors, context)
state. -/
theorem checkTrimKey_characterize (k : String) (st : List String × Ctx) :
    (checkTrimKey k st).1
      = st.1 ++ (if trimmed_str_ok ((dget st.2 k).getD .vNone) then [] else [k])
    ∧ (∀ k', ¬ k' = k → dget (checkTrimKey k st).2 k' = dget st.2 k')
    ∧ (trimmed_str_ok ((dget st.2 k).getD .vNone) = true →
        ∃ s : String, (dget st.2 k).getD .vNone = .vStr s ∧ (pyStrip s).data ≠ [] ∧
          dget (checkTrimKey k st).2 k = some (.vStr (pyStrip s))) := by
  rcases h : (dget st.2 k).getD .vNone with _ | b | n | q | s | items | entries
  case vStr =>
    by_cases he : (pyStrip s).data.isEmpty
    · simp [checkTrimKey, trimmed_str_ok, h, he]
    · refine ⟨?_, ?_, ?_⟩
      · simp [checkTrimKey, trimmed_str_ok, h, he]
      · intro k' hk'
        simp only [checkTrimKey, h, he, Bool.false_eq_true, if_false]
        exact dget_dset_ne _ _ _ _ hk'
      · intro _
        refine ⟨s, rfl, by simpa using he, ?_⟩
        simp only [checkTrimKey, h, he, Bool.false_eq_true, if_false]
        exact dget_dset_self _ _ _
  all_goals simp [checkTrimKey, trimmed_str_ok, h]

/-- C4: validation of the resolved parameter context succeeds iff `steps`,
`width` and `height` coerce to positive integers, `cfg_scale` coerces to a
positive number, and `sampler` and `scheduler` are non-empty strings after
trimming; on failure exactly one aggregated `ValidationFailure` is raised
whose message joins all (sorted) offending keys, and on success the context
holds the coerced values: positive ints, `cfg_scale` rounded half-even to two
decimals, trimmed `sampler` / `scheduler`. -/
theorem validate_parameter_context_spec (ctx : Ctx) :
    ((∃ ctx2, validate_parameter_context ctx = .ok ctx2) ↔ context_offenders ctx = [])
    ∧ (∀ ctx2, validate_parameter_context ctx = .ok ctx2 →
        (∃ n : Int, 0 < n ∧ coerce_positive_int ((dget ctx "steps").getD .vNone) = some n
          ∧ dget ctx2 "steps" = some (.vInt n))
        ∧ (∃ n : Int, 0 < n ∧ coerce_positive_int ((dget ctx "width").getD .vNone) = some n
          ∧ dget ctx2 "width" = some (.vInt n))
        ∧ (∃ n : Int, 0 < n ∧ coerce_positive_int ((dget ctx "height").getD .vNone) = some n
          ∧ dget ctx2 "height" = some (.vInt n))
        ∧ (∃ q : ℚ, 0 < q ∧ as_float ((dget ctx "cfg_scale").getD .vNone) = some q
          ∧ dget ctx2 "cfg_scale" = some (.vFloat (pyRound2 q)))
        ∧ (∃ s : String, (dget ctx "sampler").getD .vNone = .vStr s
          ∧ (pyStrip s).data ≠ [] ∧ dget ctx2 "sampler" = some (.vStr (pyStrip s)))
        ∧ (∃ s : String, (dget ctx "scheduler").getD .vNone = .vStr s
          ∧ (pyStrip s).data ≠ [] ∧ dget ctx2 "scheduler" = some (.vStr (pyStrip s))))
    ∧ (context_offenders ctx ≠ [] →
        validate_parameter_context ctx = .error
          ("Missing or invalid required workflow parameters: "
            ++ String.intercalate ", " (sortStrs (context_offenders ctx)))) := by
  set st1 := checkPosIntKey "steps" ([], ctx) with hst1
  set st2 := checkPosIntKey "width" st1 with hst2
  set st3 := checkPosIntKey "height" st2 with hst3
  set st4 := checkCfgScale st3 with hst4
  set st5 := checkTrimKey "sampler" st4 with hst5
  set st6 := checkTrimKey "scheduler" st5 with hst6
  have hval : validate_parameter_context ctx =
      (if st6.1.isEmpty then Except.ok st6.2
       else Except.error ("Missing or invalid required workflow parameters: "
         ++ String.intercalate ", " (sortStrs st6.1))) := by
    rw [hst6, hst5, hst4, hst3, hst2, hst1]
    rfl
  obtain ⟨e1, f1, s1⟩ := checkPosIntKey_characterize "steps" ([], ctx)
  rw [← hst1] at e1 f1 s1
  obtain ⟨e2, f2, s2⟩ := checkPosIntKey_characterize "width" st1
  rw [← hst2] at e2 f2 s2
  obtain ⟨e3, f3, s3⟩ := checkPosIntKey_characterize "height" st2
  rw [← hst3] at e3 f3 s3
  obtain ⟨e4, f4, s4⟩ := checkCfgScale_characterize st3
  rw [← hst4] at e4 f4 s4
  obtain ⟨e5, f5, s5⟩ := checkTrimKey_characterize "sampler" st4
  rw [← hst5] at e5 f5 s5
  obtain ⟨e6, f6, s6⟩ := checkTrimKey_characterize "scheduler" st5
  rw [← hst6] at e6 f6 s6
  have hw : dget st1.2 "width" = dget ctx "width" := f1 "width" (by decide)
  rw [hw] at e2 s2
  have hh : dget st2.2 "height" = dget ctx "height" :=
    (f2 "height" (by decide)).trans (f1 "height" (by decide))
  rw [hh] at e3 s3
  have hc : dget st3.2 "cfg_scale" = dget ctx "cfg_scale" :=
    ((f3 "cfg_scale" (by decide)).trans (f2 "cfg_scale" (by decide))).trans
      (f1 "cfg_scale" (by decide))
  rw [hc] at e4 s4
  have hsam : dget st4.2 "sampler" = dget ctx "sampler" :=
    (((f4 "sampler" (by decide)).trans (f3 "sampler" (by decide))).trans
      (f2 "sampler" (by decide))).trans (f1 "sampler" (by decide))
  rw [hsam] at e5 s5
  have hsch : dget st5.2 "scheduler" = dget ctx "scheduler" :=
    ((((f5 "scheduler" (by decide)).trans (f4 "scheduler" (by decide))).trans
      (f3 "scheduler" (by decide))).trans (f2 "scheduler" (by decide))).trans
      (f1 "scheduler" (by decide))
  rw [hsch] at e6 s6
  have herr : st6.1 = context_offenders ctx := by
    rw [e6, e5, e4, e3, e2, e1]
    simp [context_offenders, List.append_assoc]
  refine ⟨⟨?_, ?_⟩, ?_, ?_⟩
  · rintro ⟨ctx2, hok⟩
    rw [hval] at hok
    by_cases hemp : st6.1.isEmpty = true
    · rw [← herr]
      exact List.isEmpty_iff.mp hemp
    · rw [if_neg hemp] at hok
      exact absurd hok (by simp)
  · intro hoff
    refine ⟨st6.2, ?_⟩
    rw [hval, if_pos (List.isEmpty_iff.mpr (herr.trans hoff))]
  · intro ctx2 hok
    have hoff : context_offenders ctx = [] := by
      rw [hval] at hok
      by_cases hemp : st6.1.isEmpty = true
      · rw [← herr]
        exact List.isEmpty_iff.mp hemp
      · rw [if_neg hemp] at hok
        exact absurd hok (by simp)
    have hctx2 : ctx2 = st6.2 := by
      rw [hval, if_pos (List.isEmpty_iff.mpr (herr.trans hoff))] at hok
      injection hok with h2
      exact h2.symm
    have hcomps := hoff
    unfold context_offenders at hcomps
    simp only [List.append_eq_nil] at hcomps
    obtain ⟨⟨⟨⟨⟨c1, c2⟩, c3⟩, c4⟩, c5⟩, c6⟩ := hcomps
    have b1 : pos_int_ok ((dget ctx "steps").getD .vNone) = true := by
      by_cases hb : pos_int_ok ((dget ctx "steps").getD .vNone) = true
      · exact hb
      · rw [if_neg hb] at c1; cases c1
    have b2 : pos_int_ok ((dget ctx "width").getD .vNone) = true := by
      by_cases hb : pos_int_ok ((dget ctx "width").getD .vNone) = true
      · exact hb
      · rw [if_neg hb] at c2; cases c2
    have b3 : pos_int_ok ((dget ctx "height").getD .vNone) = true := by
      by_cases hb : pos_int_ok ((dget ctx "height").getD .vNone) = true
      · exact hb
      · rw [if_neg hb] at c3; cases c3
    have b4 : cfg_scale_ok ((dget ctx "cfg_scale").getD .vNone) = true := by
      by_cases hb : cfg_scale_ok ((dget ctx "cfg_scale").getD .vNone) = true
      · exact hb
      · rw [if_neg hb] at c4; cases c4
    have b5 : trimmed_str_ok ((dget ctx "sampler").getD .vNone) = true := by
      by_cases hb : trimmed_str_ok ((dget ctx "sampler").getD .vNone) = true
      · exact hb
      · rw [if_neg hb] at c5; cases c5
    have b6 : trimmed_str_ok ((dget ctx "scheduler").getD .vNone) = true := by
      by_cases hb : trimmed_str_ok ((dget ctx "scheduler").getD .vNone) = true
      · exact hb
      · rw [if_neg hb] at c6; cases c6
    subst hctx2
    refine ⟨?_, ?_, ?_, ?_, ?_, ?_⟩
    · obtain ⟨n, hpos, hco, hget⟩ := s1 b1
      refine ⟨n, hpos, hco, ?_⟩
      rw [f6 "steps" (by decide), f5 "steps" (by decide), f4 "steps" (by decide),
        f3 "steps" (by decide), f2 "steps" (by decide)]
      exact hget
    · obtain ⟨n, hpos, hco, hget⟩ := s2 b2
      refine ⟨n, hpos, hco, ?_⟩
      rw [f6 "width" (by decide), f5 "width" (by decide), f4 "width" (by decide),
        f3 "width" (by decide)]
      exact hget
    · obtain ⟨n, hpos, hco, hget⟩ := s3 b3
      refine ⟨n, hpos, hco, ?_⟩
      rw [f6 "height" (by decide), f5 "height" (by decide), f4 "height" (by decide)]
      exact hget
    · obtain ⟨q, hpos, hco, hget⟩ := s4 b4
      refine ⟨q, hpos, hco, ?_⟩
      rw [f6 "cfg_scale" (by decide), f5 "cfg_scale" (by decide)]
      exact hget
    · obtain ⟨s, hs, hne, hget⟩ := s5 b5
      refine ⟨s, hs, hne, ?_⟩
      rw [f6 "sampler" (by decide)]
      exact hget
    · exact s6 b6
  · intro hne
    have hemp : ¬ st6.1.isEmpty = true := by
      rw [herr]
      intro hcontra
      exact hne (List.isEmpty_iff.mp hcontra)
    rw [hval, if_neg hemp, herr]

/-- Completeness half of C7 at an arbitrary starting index: the image at
offset `i` of the remaining list, when present on disk, is uploaded under the
key built from index `start + i`. -/
theorem upload_keys_from_mem (jobId sv : String) (outputs : List UploadImage) :
    ∀ (start i : Nat) (img : UploadImage),
      outputs[i]? = some img → img.exists_on_disk = true →
      ("comfy-outputs/" ++ jobId ++ "/" ++ fmt02 (start + i) ++ "_" ++ sv ++
        (if path_suffix img.filename = "" then ".png" else path_suffix img.filename))
        ∈ upload_keys_from jobId sv start outputs := by
  induction outputs with
  | nil => intro start i img h hex; simp at h
  | cons o rest ih =>
    intro start i img h hex
    cases i with
    | zero =>
      simp only [List.getElem?_cons_zero, Option.some.injEq] at h
      subst h
      unfold upload_keys_from
      simp [hex]
    | succ i =>
      simp only [List.getElem?_cons_succ] at h
      have hmem := ih (start + 1) i img h hex
      have harith : start + (i + 1) = start + 1 + i := by omega
      unfold upload_keys_from
      by_cases he : o.exists_on_disk = true
      · simp only [he, if_true]
        exact List.mem_cons_of_mem _ (harith ▸ hmem)
      · simp only [eq_false_of_ne_true he, Bool.false_eq_true, if_false]
        exact harith ▸ hmem

/-- Soundness half of C7 at an arbitrary starting index: every key in the
upload list comes from an on-disk image at some offset, under the key built
from that offset. -/
theorem upload_keys_from_sound (jobId sv : String) (outputs : List UploadImage) :
    ∀ (start : Nat) (key : String), key ∈ upload_keys_from jobId sv start outputs →
      ∃ (i : Nat) (img : UploadImage), outputs[i]? = some img ∧ img.exists_on_disk = true ∧
        key = "comfy-outputs/" ++ jobId ++ "/" ++ fmt02 (start + i) ++ "_" ++ sv ++
          (if path_suffix img.filename = "" then ".png" else path_suffix img.filename) := by
  induction outputs with
  | nil => intro start key h; simp [upload_keys_from] at h
  | cons o rest ih =>
    intro start key h
    unfold upload_keys_from at h
    by_cases he : o.exists_on_disk = true
    · simp only [he, if_true, List.mem_cons] at h
      rcases h with h | h
      · exact ⟨0, o, by simp, he, by simpa using h⟩
      · obtain ⟨i, img, hget, hex, hkey⟩ := ih (start + 1) key h
        refine ⟨i + 1, img, by simpa using hget, hex, ?_⟩
        rw [hkey, show start + (i + 1) = start + 1 + i from by omega]
    · simp only [eq_false_of_ne_true he, Bool.false_eq_true, if_false] at h
      obtain ⟨i, img, hget, hex, hkey⟩ := ih (start + 1) key h
      refine ⟨i + 1, img, by simpa using hget, hex, ?_⟩
      rw [hkey, show start + (i + 1) = start + 1 + i from by omega]

/-- C7: the object-store destination key of every uploaded output image is
`comfy-outputs/<jobId>/<NN>_<seed><ext>`, where `NN` is the 1-based
two-digit-padded index of the image in the renderer-reported output list
(missing images still consume their index), `<seed>` is the resolved seed and
`<ext>` is the source filename's suffix, `.png` when the filename has none —
and conversely every key uploaded has this shape. -/
theorem upload_destination_keys_spec (jobId : String) (seed : Nat)
    (outputs : List UploadImage) :
    (∀ (i : Nat) (img : UploadImage), outputs[i]? = some img → img.exists_on_disk = true →
      ("comfy-outputs/" ++ jobId ++ "/" ++ fmt02 (i + 1) ++ "_" ++ natRepr seed ++
        (if path_suffix img.filename = "" then ".png" else path_suffix img.filename))
        ∈ upload_keys jobId seed outputs)
    ∧ (∀ key ∈ upload_keys jobId seed outputs, ∃ (i : Nat) (img : UploadImage),
        outputs[i]? = some img ∧ img.exists_on_disk = true ∧
        key = "comfy-outputs/" ++ jobId ++ "/" ++ fmt02 (i + 1) ++ "_" ++ natRepr seed ++
          (if path_suffix img.filename = "" then ".png" else path_suffix img.filename)) := by
  constructor
  · intro i img h hex
    have := upload_keys_from_mem jobId (natRepr seed) outputs 1 i img h hex
    have harith : 1 + i = i + 1 := by omega
    rw [harith] at this
    exact this
  · intro key hkey
    obtain ⟨i, img, hget, hex, hk⟩ :=
      upload_keys_from_sound jobId (natRepr seed) outputs 1 key hkey
    refine ⟨i, img, hget, hex, ?_⟩
    rw [hk, show (1 : Nat) + i = i + 1 from by omega]

section DictLemmas

/-- A successful lookup names a binding of the dict. -/
theorem dget_eq_some_mem {α : Type} {m : List (String × α)} {k : String} {v : α}
    (h : dget m k = some v) : (k, v) ∈ m := by
  unfold dget at h
  rcases hf : m.find? (fun p => p.1 == k) with _ | p
  · rw [hf] at h; cases h
  · rw [hf] at h
    injection h with h2
    have hmem := List.mem_of_find?_eq_some hf
    have hp := List.find?_some hf
    obtain ⟨k2, v2⟩ := p
    have : k2 = k := by simpa using hp
    subst this
    exact h2 ▸ hmem

/-- In a dup-free dict, membership determines the lookup. -/
theorem mem_nodup_dget {α : Type} {m : List (String × α)} {k : String} {v : α}
    (hnd : NodupKeys m) (hmem : (k, v) ∈ m) : dget m k = some v := by
  induction m with
  | nil => cases hmem
  | cons p rest ih =>
    obtain ⟨ka, va⟩ := p
    rw [dget_cons]
    rcases List.mem_cons.mp hmem with h | h
    · injection h with h1 h2
      subst h1; subst h2
      rw [if_pos (beq_iff_eq.mpr rfl)]
    · have hka : ¬ ka = k := by
        intro hcontra
        subst hcontra
        have : ka ∈ rest.map Prod.fst := List.mem_map_of_mem Prod.fst h
        exact (List.nodup_cons.mp hnd).1 this
      rw [if_neg (by simpa using hka)]
      exact ih (List.nodup_cons.mp hnd).2 h

/-- A lookup fails exactly when the key is absent. -/
theorem dget_none_iff {α : Type} (m : List (String × α)) (k : String) :
    dget m k = none ↔ k ∉ m.map Prod.fst := by
  induction m with
  | nil => simp [dget_nil]
  | cons p rest ih =>
    obtain ⟨ka, va⟩ := p
    rw [dget_cons]
    by_cases h : (ka == k) = true
    · have : ka = k := beq_iff_eq.mp h
      subst this
      simp [h]
    · rw [if_neg h]
      have : ¬ ka = k := fun hc => h (beq_iff_eq.mpr hc)
      simp [ih, this, Ne, eq_comm]
      intro
      exact fun hc => this hc.symm

/-- Popping one key leaves every other key's binding unchanged. -/
theorem dget_dpop_ne {α : Type} (m : List (String × α)) (k k' : String)
    (h : ¬ k' = k) : dget (dpop m k) k' = dget m k' := by
  induction m with
  | nil => rfl
  | cons p rest ih =>
    obtain ⟨ka, va⟩ := p
    unfold dpop
    by_cases hk : (ka == k) = true
    · rw [List.eraseP_cons_of_pos (by simpa using hk), dget_cons,
        if_neg (by
          intro hb
          have h1 : ka = k' := beq_iff_eq.mp hb
          have h2 : ka = k := beq_iff_eq.mp hk
          exact h (h1 ▸ h2))]
    · rw [List.eraseP_cons_of_neg (by simpa using hk), dget_cons, dget_cons]
      by_cases hka : (ka == k') = true
      · rw [if_pos hka, if_pos hka]
      · rw [if_neg hka, if_neg hka]
        exact ih

/-- Popping a key of a dup-free dict removes its binding. -/
theorem dget_dpop_self {α : Type} (m : List (String × α)) (k : String)
    (hnd : NodupKeys m) : dget (dpop m k) k = none := by
  induction m with
  | nil => rfl
  | cons p rest ih =>
    obtain ⟨ka, va⟩ := p
    unfold dpop
    by_cases hk : (ka == k) = true
    · rw [List.eraseP_cons_of_pos (by simpa using hk)]
      rw [dget_none_iff]
      have hka : ka = k := beq_iff_eq.mp hk
      subst hka
      exact (List.nodup_cons.mp hnd).1
    · rw [List.eraseP_cons_of_neg (by simpa using hk), dget_cons, if_neg hk]
      exact ih (List.nodup_cons.mp hnd).2

/-- Popping preserves key dup-freeness. -/
theorem NodupKeys_dpop {α : Type} (m : List (String × α)) (k : String)
    (hnd : NodupKeys m) : NodupKeys (dpop m k) := by
  have hsub : (dpop m k).Sublist m := List.eraseP_sublist m
  exact (hsub.map Prod.fst).nodup hnd

/-- Writing an absent key appends the binding. -/
theorem dset_of_none {α : Type} (m : List (String × α)) (k : String) (v : α)
    (h : dget m k = none) : dset m k v = m ++ [(k, v)] := by
  induction m with
  | nil => rfl
  | cons p rest ih =>
    obtain ⟨ka, va⟩ := p
    rw [dget_cons] at h
    by_cases hk : (ka == k) = true
    · rw [if_pos hk] at h; cases h
    · rw [if_neg hk] at h
      show (if ka == k then (k, v) :: rest else (ka, va) :: dset rest k v) = _
      rw [if_neg hk, ih h]
      rfl

/-- Writing a present key keeps the key list unchanged. -/
theorem keys_dset_present {α : Type} (m : List (String × α)) (k : String) (v w : α)
    (h : dget m k = some w) : (dset m k v).map Prod.fst = m.map Prod.fst := by
  induction m with
  | nil => cases h
  | cons p rest ih =>
    obtain ⟨ka, va⟩ := p
    rw [dget_cons] at h
    show ((if ka == k then (k, v) :: rest else (ka, va) :: dset rest k v).map Prod.fst) = _
    by_cases hk : (ka == k) = true
    · rw [if_pos hk]
      have : ka = k := beq_iff_eq.mp hk
      subst this
      rfl
    · rw [if_neg hk] at h ⊢
      show ka :: (dset rest k v).map Prod.fst = ka :: rest.map Prod.fst
      rw [ih h]

/-- Writing preserves key dup-freeness. -/
theorem NodupKeys_dset {α : Type} (m : List (String × α)) (k : String) (v : α)
    (hnd : NodupKeys m) : NodupKeys (dset m k v) := by
  rcases hk : dget m k with _ | w
  · rw [dset_of_none m k v hk]
    have hknotin : k ∉ m.map Prod.fst := (dget_none_iff m k).mp hk
    show ((m ++ [(k, v)]).map Prod.fst).Nodup
    rw [List.map_append]
    exact List.Nodup.append hnd (by simp) (by
      intro a ha hb
      simp at hb
      subst hb
      exact hknotin ha)
  · show ((dset m k v).map Prod.fst).Nodup
    rw [keys_dset_present m k v w hk]
    exact hnd

/-- Lookup distributes over append, left side first. -/
theorem dget_append {α : Type} (xs ys : List (String × α)) (k : String) :
    dget (xs ++ ys) k = (match dget xs k with | some v => some v | none => dget ys k) := by
  induction xs with
  | nil => simp [dget_nil]
  | cons p rest ih =>
    obtain ⟨ka, va⟩ := p
    rw [List.cons_append, dget_cons, dget_cons]
    by_cases hk : (ka == k) = true
    · rw [if_pos hk, if_pos hk]
    · rw [if_neg hk, if_neg hk, ih]

/-- Lookup commutes with mapping the values of a dict. -/
theorem dget_map_values {α β : Type} (m : List (String × α)) (f : α → β) (k : String) :
    dget (m.map (fun kv => (kv.1, f kv.2))) k = (dget m k).map f := by
  induction m with
  | nil => rfl
  | cons p rest ih =>
    obtain ⟨ka, va⟩ := p
    rw [List.map_cons]
    show dget ((ka, f va) :: _) k = _
    rw [dget_cons, dget_cons]
    by_cases hk : (ka == k) = true
    · rw [if_pos hk, if_pos hk]
      rfl
    · rw [if_neg hk, if_neg hk, ih]

/-- Lookup through a constant-valued map over the keys of a dict. -/
theorem dget_map_const {α β : Type} (m : List (String × α)) (c : β) (k : String) :
    dget (m.map (fun p => (p.1, c))) k = (dget m k).map (fun _ => c) := by
  induction m with
  | nil => rfl
  | cons p rest ih =>
    obtain ⟨ka, va⟩ := p
    rw [List.map_cons]
    show dget ((ka, c) :: _) k = _
    rw [dget_cons, dget_cons]
    by_cases hk : (ka == k) = true
    · rw [if_pos hk, if_pos hk]
      rfl
    · rw [if_neg hk, if_neg hk, ih]

end DictLemmas

section SortCollectLemmas

/-- Stable insertion permutes to a cons. -/
theorem insertByKey_perm (x : String × PyVal) (l : List (String × PyVal)) :
    List.Perm (insertByKey x l) (x :: l) := by
  induction l with
  | nil => exact List.Perm.refl _
  | cons y ys ih =>
    unfold insertByKey
    by_cases h : loraSortKey x.1 ≤ loraSortKey y.1
    · rw [if_pos h]
    · rw [if_neg h]
      exact List.Perm.trans (List.Perm.cons y ih) (List.Perm.swap x y ys)

/-- The stable sort is a permutation. -/
theorem stableSortByKey_perm (l : List (String × PyVal)) :
    List.Perm (stableSortByKey l) l := by
  induction l with
  | nil => exact List.Perm.refl _
  | cons x xs ih =>
    exact List.Perm.trans (insertByKey_perm x _) (List.Perm.cons x ih)

/-- The collected LoRA nodes are a permutation of the workflow's LoraLoader
entries. -/
theorem collect_perm (wf : Workflow) :
    List.Perm (collect_lora_nodes wf) (wf.filter (fun p => isLoraLoaderNode p.2)) :=
  stableSortByKey_perm _

/-- Membership in the collected list. -/
theorem mem_collect_iff (wf : Workflow) (p : String × PyVal) :
    p ∈ collect_lora_nodes wf ↔ p ∈ wf ∧ isLoraLoaderNode p.2 = true := by
  rw [(collect_perm wf).mem_iff, List.mem_filter]

/-- The LoraLoader count equals the collected list's length. -/
theorem countLora_eq_collect_length (wf : Workflow) :
    countLoraNodes wf = (collect_lora_nodes wf).length := by
  rw [countLoraNodes, (collect_perm wf).length_eq]

/-- Collected keys of a dup-free workflow are dup-free. -/
theorem collect_keys_nodup (wf : Workflow) (hnd : NodupKeys wf) :
    ((collect_lora_nodes wf).map Prod.fst).Nodup := by
  have hperm := (collect_perm wf).map Prod.fst
  refine hperm.nodup_iff.mpr ?_
  exact ((List.filter_sublist wf).map Prod.fst).nodup hnd

end SortCollectLemmas

section NatReprLemmas

/-- `natDigitsRev` computes the digits of its input when given enough fuel. -/
theorem natDigitsRev_val : ∀ (fuel n : Nat), n ≤ fuel → valRev (natDigitsRev fuel n) = n := by
  intro fuel
  induction fuel with
  | zero =>
    intro n hn
    interval_cases n
    rfl
  | succ f ih =>
    intro n hn
    unfold natDigitsRev
    by_cases h0 : n = 0
    · rw [if_pos h0, h0]; rfl
    · rw [if_neg h0]
      have hdiv : n / 10 ≤ f := by
        have : n / 10 < n := Nat.div_lt_self (Nat.pos_of_ne_zero h0) (by omega)
        omega
      show (Char.ofNat (48 + n % 10)).toNat - 48 + 10 * valRev (natDigitsRev f (n / 10)) = n
      rw [ih (n / 10) hdiv]
      have hlt : n % 10 < 10 := Nat.mod_lt _ (by omega)
      have hc : (Char.ofNat (48 + n % 10)).toNat = 48 + n % 10 := by
        have hd : n % 10 < 10 := hlt
        set d := n % 10 with hdd
        interval_cases d <;> decide
      rw [hc]
      omega

/-- Every character `natDigitsRev` emits is an ASCII digit. -/
theorem natDigitsRev_digits : ∀ (fuel n : Nat) (c : Char),
    c ∈ natDigitsRev fuel n → c.isDigit = true := by
  intro fuel
  induction fuel with
  | zero => intro n c h; cases h
  | succ f ih =>
    intro n c h
    unfold natDigitsRev at h
    by_cases h0 : n = 0
    · rw [if_pos h0] at h; cases h
    · rw [if_neg h0] at h
      rcases List.mem_cons.mp h with h | h
      · subst h
        have hlt : n % 10 < 10 := Nat.mod_lt _ (by omega)
        set d := n % 10 with hdd
        interval_cases d <;> decide
      · exact ih _ c h

/-- Parsing a big-endian digit list is the little-endian value of its
reverse. -/
theorem digitsToNat_reverse (l : List Char) : digitsToNat l.reverse = valRev l := by
  induction l with
  | nil => rfl
  | cons c cs ih =>
    rw [List.reverse_cons]
    unfold digitsToNat at ih ⊢
    rw [List.foldl_append]
    simp only [List.foldl_cons, List.foldl_nil]
    rw [ih]
    show valRev cs * 10 + (c.toNat - 48) = (c.toNat - 48) + 10 * valRev cs
    ring

/-- `natRepr` of a positive number is an all-digit string. -/
theorem natRepr_isDigits (n : Nat) (hn : n ≠ 0) : isDigits (natRepr n) = true := by
  unfold natRepr
  rw [if_neg hn]
  unfold isDigits
  have hne : natDigitsRev n n ≠ [] := by
    rcases n with _ | m
    · exact absurd rfl hn
    · unfold natDigitsRev
      rw [if_neg hn]
      simp
  refine (Bool.and_eq_true _ _).mpr ⟨?_, ?_⟩
  · simpa using hne
  · show ((natDigitsRev n n).reverse).all Char.isDigit = true
    rw [List.all_eq_true]
    intro c hc
    exact natDigitsRev_digits n n c (List.mem_reverse.mp hc)

/-- `natRepr` round-trips through `digitsToNat`. -/
theorem natRepr_val (n : Nat) (hn : n ≠ 0) : digitsToNat (natRepr n).data = n := by
  unfold natRepr
  rw [if_neg hn]
  show digitsToNat ((natDigitsRev n n).reverse) = n
  rw [digitsToNat_reverse]
  exact natDigitsRev_val n n (Nat.le_refl n)

/-- Every all-digit key of the workflow is bounded by `maxDigitKey`. -/
theorem le_maxDigitKey (wf : Workflow) (k : String) (v : PyVal)
    (hmem : (k, v) ∈ wf) (hdig : isDigits k = true) :
    digitsToNat k.data ≤ maxDigitKey wf := by
  unfold maxDigitKey
  have step : ∀ (l : List (String × PyVal)) (a : Nat), (k, v) ∈ l →
      digitsToNat k.data ≤
        l.foldl (fun acc p => if isDigits p.1 then max acc (digitsToNat p.1.data) else acc) a := by
    intro l
    induction l with
    | nil => intro a h; cases h
    | cons p rest ih =>
      intro a h
      rcases List.mem_cons.mp h with h | h
      · subst h
        rw [List.foldl_cons]
        have hmono : ∀ (l2 : List (String × PyVal)) (x y : Nat), x ≤ y →
            x ≤ l2.foldl (fun acc p =>
              if isDigits p.1 then max acc (digitsToNat p.1.data) else acc) y := by
          intro l2
          induction l2 with
          | nil => intro x y hxy; exact hxy
          | cons q qrest ih2 =>
            intro x y hxy
            rw [List.foldl_cons]
            refine ih2 x _ ?_
            by_cases hq : isDigits q.1 = true
            · rw [if_pos hq]; exact le_trans hxy (Nat.le_max_left _ _)
            · rw [if_neg hq]; exact hxy
        refine hmono rest _ _ ?_
        show digitsToNat k.data ≤ if isDigits (k, v).1 then max a (digitsToNat (k, v).1.data) else a
        rw [if_pos hdig]
        exact Nat.le_max_right _ _
      · rw [List.foldl_cons]
        exact ih _ h
  exact step wf 0 hmem

/-- The allocated node id is absent from the workflow. -/
theorem allocate_fresh (wf : Workflow) : dget wf (allocate_node_id wf) = none := by
  rcases hg : dget wf (allocate_node_id wf) with _ | v
  · rfl
  · exfalso
    have hmem := dget_eq_some_mem hg
    have hdig : isDigits (allocate_node_id wf) = true :=
      natRepr_isDigits _ (Nat.succ_ne_zero _)
    have hle := le_maxDigitKey wf _ v hmem hdig
    rw [show digitsToNat (allocate_node_id wf).data = maxDigitKey wf + 1 from
      natRepr_val _ (Nat.succ_ne_zero _)] at hle
    omega

end NatReprLemmas

section CountLemmas

/-- Appending one binding adds its LoraLoader bit to the count. -/
theorem countLora_append (m : Workflow) (k : String) (v : PyVal) :
    countLoraNodes (m ++ [(k, v)])
      = countLoraNodes m + (if isLoraLoaderNode v then 1 else 0) := by
  unfold countLoraNodes
  rw [List.filter_append, List.length_append]
  by_cases h : isLoraLoaderNode v = true <;> simp [h]

/-- Overwriting a present binding with an equally-LoraLoader value keeps the
count. -/
theorem countLora_dset_pres (m : Workflow) (k : String) (v w : PyVal)
    (hget : dget m k = some w) (hiso : isLoraLoaderNode v = isLoraLoaderNode w) :
    countLoraNodes (dset m k v) = countLoraNodes m := by
  induction m with
  | nil => cases hget
  | cons p rest ih =>
    obtain ⟨ka, va⟩ := p
    rw [dget_cons] at hget
    show countLoraNodes (if ka == k then (k, v) :: rest else (ka, va) :: dset rest k v)
      = countLoraNodes ((ka, va) :: rest)
    by_cases hk : (ka == k) = true
    · rw [if_pos hk]
      rw [if_pos hk] at hget
      injection hget with hw
      subst hw
      unfold countLoraNodes
      rw [List.filter_cons, List.filter_cons]
      by_cases hl : isLoraLoaderNode v = true
      · rw [if_pos (by simpa using hl), if_pos (by simpa [← hiso] using hl)]
        rfl
      · rw [if_neg (by simpa using hl), if_neg (by simpa [← hiso] using hl)]
    · rw [if_neg hk]
      rw [if_neg hk] at hget
      unfold countLoraNodes
      rw [List.filter_cons, List.filter_cons]
      by_cases hl : isLoraLoaderNode va = true
      · rw [if_pos (by simpa using hl), if_pos (by simpa using hl)]
        simpa [countLoraNodes] using ih hget
      · rw [if_neg (by simpa using hl), if_neg (by simpa using hl)]
        exact ih hget

/-- A dict holding a LoraLoader binding counts at least one. -/
theorem one_le_countLora (m : Workflow) (k : String) (w : PyVal)
    (hget : dget m k = some w) (hl : isLoraLoaderNode w = true) :
    1 ≤ countLoraNodes m := by
  have hmem := dget_eq_some_mem hget
  unfold countLoraNodes
  have : (k, w) ∈ m.filter (fun p => isLoraLoaderNode p.2) :=
    List.mem_filter.mpr ⟨hmem, hl⟩
  exact List.length_pos.mpr (fun hcontra => by simp [hcontra] at this)

/-- Popping a LoraLoader binding decreases the count by one. -/
theorem countLora_dpop (m : Workflow) (k : String) (w : PyVal)
    (hget : dget m k = some w) (hl : isLoraLoaderNode w = true) :
    countLoraNodes (dpop m k) = countLoraNodes m - 1 := by
  induction m with
  | nil => cases hget
  | cons p rest ih =>
    obtain ⟨ka, va⟩ := p
    rw [dget_cons] at hget
    unfold dpop
    by_cases hk : (ka == k) = true
    · rw [List.eraseP_cons_of_pos (by simpa using hk)]
      rw [if_pos hk] at hget
      injection hget with hw
      subst hw
      unfold countLoraNodes
      rw [List.filter_cons, if_pos (by simpa using hl)]
      simp
    · rw [List.eraseP_cons_of_neg (by simpa using hk)]
      rw [if_neg hk] at hget
      have hrest := ih hget
      have hone := one_le_countLora rest k w hget hl
      unfold countLoraNodes at hrest hone ⊢
      unfold dpop at hrest
      rw [List.filter_cons, List.filter_cons]
      by_cases hva : isLoraLoaderNode va = true
      · rw [if_pos (by simpa using hva), if_pos (by simpa using hva)]
        rw [List.length_cons, List.length_cons]
        omega
      · rw [if_neg (by simpa using hva), if_neg (by simpa using hva)]
        exact hrest

end CountLemmas

section RedirectLemmas

/-- Setting any field other than `class_type` does not change whether a node
is a LoraLoader. -/
theorem isLora_dset (f : List (String × PyVal)) (k : String) (x : PyVal)
    (h : ¬ "class_type" = k) :
    isLoraLoaderNode (.vDict (dset f k x)) = isLoraLoaderNode (.vDict f) := by
  simp only [isLoraLoaderNode]
  rw [dget_dset_ne f k "class_type" x h]

/-- Redirecting a node's connections does not change whether it is a
LoraLoader. -/
theorem isLora_redirectNode (mapping : RMap) (node : PyVal) :
    isLoraLoaderNode (redirectNode mapping node) = isLoraLoaderNode node := by
  rcases node with _ | b | n | q | s | items | fields
  case vDict =>
    simp only [redirectNode]
    rcases hin : dget fields "inputs" with _ | v
    · rfl
    · rcases v with _ | b | n | q | s | items | inps
      case vDict => exact isLora_dset _ _ _ (by decide)
      all_goals rfl
  all_goals rfl

/-- Lookup through `_redirect_connections`: same keys, transformed nodes
outside the skip set. -/
theorem dget_redirect (wf : Workflow) (mapping : RMap) (skip : List String) (k : String) :
    dget (redirect_connections wf mapping skip) k
      = (dget wf k).map (fun node => if skip.contains k then node else redirectNode mapping node) := by
  induction wf with
  | nil => rfl
  | cons p rest ih =>
    obtain ⟨ka, va⟩ := p
    unfold redirect_connections at ih ⊢
    rw [List.map_cons]
    by_cases hskip : skip.contains ka = true
    · rw [if_pos hskip]
      rw [dget_cons, dget_cons]
      by_cases hk : (ka == k) = true
      · rw [if_pos hk, if_pos hk]
        have : ka = k := beq_iff_eq.mp hk
        subst this
        simp only [Option.map_some']
        rw [if_pos hskip]
      · rw [if_neg hk, if_neg hk]
        exact ih
    · rw [if_neg hskip]
      show dget ((ka, redirectNode mapping va) :: _) k = _
      rw [dget_cons, dget_cons]
      by_cases hk : (ka == k) = true
      · rw [if_pos hk, if_pos hk]
        have : ka = k := beq_iff_eq.mp hk
        subst this
        simp only [Option.map_some']
        rw [if_neg hskip]
      · rw [if_neg hk, if_neg hk]
        exact ih

/-- The LoraLoader count is invariant under `_redirect_connections`. -/
theorem countLora_redirect (wf : Workflow) (mapping : RMap) (skip : List String) :
    countLoraNodes (redirect_connections wf mapping skip) = countLoraNodes wf := by
  induction wf with
  | nil => rfl
  | cons p rest ih =>
    obtain ⟨ka, va⟩ := p
    unfold redirect_connections at ih ⊢
    rw [List.map_cons]
    unfold countLoraNodes at ih ⊢
    by_cases hskip : skip.contains ka = true
    · rw [if_pos hskip]
      rw [List.filter_cons, List.filter_cons]
      by_cases hl : isLoraLoaderNode va = true
      · rw [if_pos (by simpa using hl), if_pos (by simpa using hl),
          List.length_cons, List.length_cons, ih]
      · rw [if_neg (by simpa using hl), if_neg (by simpa using hl), ih]
    · rw [if_neg hskip]
      show (List.filter _ ((ka, redirectNode mapping va) :: _)).length = _
      rw [List.filter_cons, List.filter_cons]
      by_cases hl : isLoraLoaderNode va = true
      · rw [if_pos (by simpa [isLora_redirectNode] using hl), if_pos (by simpa using hl),
          List.length_cons, List.length_cons, ih]
      · rw [if_neg (by simpa [isLora_redirectNode] using hl), if_neg (by simpa using hl), ih]

/-- A skipped node's inputs are untouched by `_redirect_connections`. -/
theorem nodeInputValue_redirect_skip (wf : Workflow) (mapping : RMap) (skip : List String)
    (nid k : String) (hskip : skip.contains nid = true) :
    nodeInputValue (redirect_connections wf mapping skip) nid k = nodeInputValue wf nid k := by
  unfold nodeInputValue
  rw [dget_redirect]
  rcases dget wf nid with _ | node
  · rfl
  · simp only [Option.map_some']
    rw [if_pos hskip]

/-- A non-skipped node's input values go through `redirectValue`. -/
theorem nodeInputValue_redirect (wf : Workflow) (mapping : RMap) (skip : List String)
    (nid k : String) (nf inps : List (String × PyVal))
    (hskip : skip.contains nid = false)
    (hnode : dget wf nid = some (.vDict nf))
    (hinps : dget nf "inputs" = some (.vDict inps)) :
    nodeInputValue (redirect_connections wf mapping skip) nid k
      = (dget inps k).map (redirectValue mapping) := by
  have hred : redirectNode mapping (.vDict nf)
      = .vDict (dset nf "inputs"
          (.vDict (inps.map (fun kv => (kv.1, redirectValue mapping kv.2))))) := by
    simp only [redirectNode, hinps]
  unfold nodeInputValue
  rw [dget_redirect, hnode]
  simp only [Option.map_some', hskip, Bool.false_eq_true, if_false, hred, dget_dset_self]
  rw [dget_map_values]

/-- Looking up the template entry of the final mapping: the extras all map
their outputs 0/1 elsewhere, and the template id is none of them. -/
theorem rmapLookup_template (extras : List (String × PyVal)) (um uc : String × Int)
    (tid : String) (repl0 repl1 : String × Int)
    (htid : tid ∉ extras.map Prod.fst) :
    rmapLookup (extras.map (fun p => (p.1, [(0, um), (1, uc)]))
        ++ [(tid, [(0, repl0), (1, repl1)])] ) tid 0 = some repl0
    ∧ rmapLookup (extras.map (fun p => (p.1, [(0, um), (1, uc)]))
        ++ [(tid, [(0, repl0), (1, repl1)])] ) tid 1 = some repl1 := by
  have hnone : dget (extras.map (fun p => (p.1, [((0 : Int), um), (1, uc)]))) tid = none := by
    rw [dget_map_const, (dget_none_iff extras tid).mpr htid]
    rfl
  constructor <;>
    · unfold rmapLookup
      rw [dget_append, hnone]
      rw [show dget [(tid, [((0 : Int), repl0), (1, repl1)])] tid
          = some [((0 : Int), repl0), (1, repl1)] from
        dget_dset_self [] tid [((0 : Int), repl0), (1, repl1)]]
      rfl

/-- Looking up an extra template's entry of the mapping. -/
theorem rmapLookup_extra (extras : List (String × PyVal)) (um uc : String × Int)
    (tid eid : String) (repl0 repl1 : String × Int) (enode : PyVal)
    (hmem : dget extras eid = some enode) :
    rmapLookup (extras.map (fun p => (p.1, [(0, um), (1, uc)]))
        ++ [(tid, [(0, repl0), (1, repl1)])] ) eid 0 = some um
    ∧ rmapLookup (extras.map (fun p => (p.1, [(0, um), (1, uc)]))
        ++ [(tid, [(0, repl0), (1, repl1)])] ) eid 1 = some uc := by
  have hsome : dget (extras.map (fun p => (p.1, [((0 : Int), um), (1, uc)]))) eid
      = some [((0 : Int), um), (1, uc)] := by
    rw [dget_map_const, hmem]
    rfl
  constructor <;>
    · unfold rmapLookup
      rw [dget_append, hsome]
      rfl

end RedirectLemmas

section ExtrasFoldLemmas

/-- Removing the extra template LoraLoaders: the count drops by one per
extra, every other binding survives, key dup-freeness is kept, and the
removed keys are gone. -/
theorem foldl_dpop_spec (ex : List (String × PyVal)) :
    ∀ (wf : Workflow), NodupKeys wf →
    (∀ p ∈ ex, dget wf p.1 = some p.2 ∧ isLoraLoaderNode p.2 = true) →
    (ex.map Prod.fst).Nodup →
    countLoraNodes (ex.foldl (fun w p => dpop w p.1) wf) = countLoraNodes wf - ex.length
    ∧ (∀ k, k ∉ ex.map Prod.fst →
        dget (ex.foldl (fun w p => dpop w p.1) wf) k = dget wf k)
    ∧ NodupKeys (ex.foldl (fun w p => dpop w p.1) wf)
    ∧ (∀ p ∈ ex, dget (ex.foldl (fun w p => dpop w p.1) wf) p.1 = none) := by
  induction ex with
  | nil =>
    intro wf hnd _ _
    exact ⟨by simp, fun k _ => rfl, hnd, fun p hp => absurd hp (List.not_mem_nil p)⟩
  | cons e rest ih =>
    intro wf hnd hex hexnd
    obtain ⟨he, hel⟩ := hex e (List.mem_cons_self e rest)
    have hnd2 : NodupKeys (dpop wf e.1) := NodupKeys_dpop wf e.1 hnd
    have hrestfacts : ∀ p ∈ rest, dget (dpop wf e.1) p.1 = some p.2
        ∧ isLoraLoaderNode p.2 = true := by
      intro p hp
      obtain ⟨hp1, hp2⟩ := hex p (List.mem_cons_of_mem e hp)
      refine ⟨?_, hp2⟩
      rw [dget_dpop_ne wf e.1 p.1 (by
        intro hcontra
        have : e.1 ∈ rest.map Prod.fst := hcontra ▸ List.mem_map_of_mem Prod.fst hp
        exact (List.nodup_cons.mp hexnd).1 this)]
      exact hp1
    obtain ⟨ihc, ihf, ihn, ihg⟩ := ih (dpop wf e.1) hnd2 hrestfacts (List.nodup_cons.mp hexnd).2
    rw [List.foldl_cons]
    refine ⟨?_, ?_, ihn, ?_⟩
    · rw [ihc, countLora_dpop wf e.1 e.2 he hel]
      rw [List.length_cons]
      omega
    · intro k hk
      have hk1 : k ∉ rest.map Prod.fst := fun hc => hk (List.mem_cons_of_mem _ hc)
      have hk2 : ¬ k = e.1 := fun hc => hk (by
        rw [List.map_cons]
        exact hc ▸ List.mem_cons_self _ _)
      rw [ihf k hk1, dget_dpop_ne wf e.1 k hk2]
    · intro p hp
      rcases List.mem_cons.mp hp with hp | hp
      · subst hp
        by_cases hin : p.1 ∈ rest.map Prod.fst
        · exact absurd hin (List.nodup_cons.mp hexnd).1
        · rw [ihf p.1 hin]
          exact dget_dpop_self wf p.1 hnd
      · exact ihg p hp

end ExtrasFoldLemmas

section ChainLemmas

/-- Membership gives `contains` on string lists. -/
theorem scontains_true {l : List String} {a : String} (h : a ∈ l) : l.contains a = true :=
  List.elem_eq_true_of_mem h

/-- Non-membership refutes `contains` on string lists. -/
theorem scontains_false {l : List String} {a : String} (h : a ∉ l) : l.contains a = false := by
  simpa using h

/-- The `model` slot of a freshly wired LoRA inputs dict. -/
theorem dget_wired5_model (t : List (String × PyVal)) (M C L S T : PyVal) :
    dget (dset (dset (dset (dset (dset t "model" M) "clip" C) "lora_name" L)
      "strength_model" S) "strength_clip" T) "model" = some M := by
  rw [dget_dset_ne _ _ _ _ (by decide), dget_dset_ne _ _ _ _ (by decide),
    dget_dset_ne _ _ _ _ (by decide), dget_dset_ne _ _ _ _ (by decide), dget_dset_self]

/-- The `clip` slot of a freshly wired LoRA inputs dict. -/
theorem dget_wired5_clip (t : List (String × PyVal)) (M C L S T : PyVal) :
    dget (dset (dset (dset (dset (dset t "model" M) "clip" C) "lora_name" L)
      "strength_model" S) "strength_clip" T) "clip" = some C := by
  rw [dget_dset_ne _ _ _ _ (by decide), dget_dset_ne _ _ _ _ (by decide),
    dget_dset_ne _ _ _ _ (by decide), dget_dset_self]

/-- Reading one input through the two dict levels of a node. -/
theorem nodeInputValue_eq (wf : Workflow) (nid k : String) (nf inps : List (String × PyVal))
    (hnode : dget wf nid = some (.vDict nf)) (hinps : dget nf "inputs" = some (.vDict inps)) :
    nodeInputValue wf nid k = dget inps k := by
  simp only [nodeInputValue, hnode, hinps]

/-- Indexed reading of `chainLinked`: the j-th chained node is wired to the
j-th element of the extended chain. -/
theorem chainLinked_get (wf : Workflow) :
    ∀ (ids : List String) (prev : String), chainLinked wf prev ids →
    ∀ (j : Nat) (cur : String), ids[j]? = some cur →
    nodeInputValue wf cur "model" = some (.vList [.vStr ((prev :: ids)[j]?.getD ""), .vInt 0])
    ∧ nodeInputValue wf cur "clip" = some (.vList [.vStr ((prev :: ids)[j]?.getD ""), .vInt 1]) := by
  intro ids
  induction ids with
  | nil =>
    intro prev _ j cur hj
    simp at hj
  | cons a rest ih =>
    intro prev hc j cur hj
    obtain ⟨h1, h2, h3⟩ := hc
    cases j with
    | zero =>
      have : a = cur := by simpa using hj
      subst this
      constructor
      · simpa using h1
      · simpa using h2
    | succ j2 =>
      have hj2 : rest[j2]? = some cur := by simpa using hj
      have := ih a h3 j2 cur hj2
      simpa using this

/-- A chain living inside the skip set survives `_redirect_connections`. -/
theorem chainLinked_redirect (wf : Workflow) (mapping : RMap) (skip : List String) :
    ∀ (ids : List String) (prev : String), (∀ i ∈ ids, i ∈ skip) →
    chainLinked wf prev ids → chainLinked (redirect_connections wf mapping skip) prev ids := by
  intro ids
  induction ids with
  | nil =>
    intro prev _ _
    trivial
  | cons a rest ih =>
    intro prev hsub hc
    obtain ⟨h1, h2, h3⟩ := hc
    refine ⟨?_, ?_, ih a (fun i hi => hsub i (List.mem_cons_of_mem _ hi)) h3⟩
    · rw [nodeInputValue_redirect_skip wf mapping skip a "model"
        (scontains_true (hsub a (List.mem_cons_self _ _)))]
      exact h1
    · rw [nodeInputValue_redirect_skip wf mapping skip a "clip"
        (scontains_true (hsub a (List.mem_cons_self _ _)))]
      exact h2

/-- The `loras[1:]` loop invariant: `chain_extend` preserves key dup-freeness,
leaves every existing binding alone, allocates one fresh dup-free id per
name, adds exactly one LoraLoader per name, wires each new node to its
predecessor's outputs 0/1, and ends on the last id of the chain. -/
theorem chain_extend_spec (protoFields protoInputs : List (String × PyVal))
    (metadata : List MetaEntry)
    (hproto : isLoraLoaderNode (.vDict protoFields) = true) :
    ∀ (names : List String) (wf : Workflow) (last : String), NodupKeys wf →
      NodupKeys (chain_extend protoFields protoInputs metadata wf last names).1
      ∧ (∀ k, k ∉ (chain_extend protoFields protoInputs metadata wf last names).2.2.1 →
          dget (chain_extend protoFields protoInputs metadata wf last names).1 k = dget wf k)
      ∧ (chain_extend protoFields protoInputs metadata wf last names).2.2.1.length = names.length
      ∧ countLoraNodes (chain_extend protoFields protoInputs metadata wf last names).1
          = countLoraNodes wf + names.length
      ∧ (∀ i ∈ (chain_extend protoFields protoInputs metadata wf last names).2.2.1,
          dget wf i = none)
      ∧ (chain_extend protoFields protoInputs metadata wf last names).2.2.1.Nodup
      ∧ (chain_extend protoFields protoInputs metadata wf last names).2.1
          = (chain_extend protoFields protoInputs metadata wf last names).2.2.1.getLastD last
      ∧ chainLinked (chain_extend protoFields protoInputs metadata wf last names).1 last
          (chain_extend protoFields protoInputs metadata wf last names).2.2.1
      ∧ (∀ i ∈ (chain_extend protoFields protoInputs metadata wf last names).2.2.1,
          ∃ nf, dget (chain_extend protoFields protoInputs metadata wf last names).1 i
              = some (.vDict nf) ∧ isLoraLoaderNode (.vDict nf) = true) := by
  intro names
  induction names with
  | nil =>
    intro wf last hnd
    exact ⟨hnd, fun k _ => rfl, rfl, rfl,
      fun i hi => absurd hi (List.not_mem_nil i), List.nodup_nil, rfl, trivial,
      fun i hi => absurd hi (List.not_mem_nil i)⟩
  | cons name rest ih =>
    intro wf last hnd
    simp only [chain_extend]
    set nid := allocate_node_id wf with hnid
    set newInputs := dset (dset (dset (dset (dset protoInputs
      "model" (.vList [.vStr last, .vInt 0]))
      "clip" (.vList [.vStr last, .vInt 1]))
      "lora_name" (.vStr name))
      "strength_model" (.vFloat (strength_for name metadata)))
      "strength_clip" (.vFloat (strength_for name metadata)) with hni
    set newFields := dset (dset protoFields "inputs" (.vDict newInputs)) "id"
      (.vInt (digitsToNat nid.data)) with hnf
    set wf2 := dset wf nid (.vDict newFields) with hwf2
    have hfresh : dget wf nid = none := by rw [hnid]; exact allocate_fresh wf
    have hl2 : isLoraLoaderNode (.vDict newFields) = true := by
      rw [hnf, isLora_dset _ _ _ (by decide), isLora_dset _ _ _ (by decide)]
      exact hproto
    have hnd2 : NodupKeys wf2 := by
      rw [hwf2]
      exact NodupKeys_dset wf nid _ hnd
    have hg2 : dget wf2 nid = some (.vDict newFields) := by
      rw [hwf2]
      exact dget_dset_self _ _ _
    have hc2 : countLoraNodes wf2 = countLoraNodes wf + 1 := by
      rw [hwf2, dset_of_none wf nid _ hfresh, countLora_append, if_pos hl2]
    have hframe2 : ∀ k, ¬ k = nid → dget wf2 k = dget wf k := by
      intro k hk
      rw [hwf2]
      exact dget_dset_ne wf nid k _ hk
    obtain ⟨ih1, ih2, ih3, ih4, ih5, ih6, ih7, ih8, ih9⟩ := ih wf2 nid hnd2
    have hnotin : nid ∉ (chain_extend protoFields protoInputs metadata wf2 nid rest).2.2.1 := by
      intro hc
      rw [ih5 nid hc] at hg2
      cases hg2
    have hgr : dget (chain_extend protoFields protoInputs metadata wf2 nid rest).1 nid
        = some (.vDict newFields) := by
      rw [ih2 nid hnotin]
      exact hg2
    refine ⟨ih1, ?_, ?_, ?_, ?_, ?_, ?_, ?_, ?_⟩
    · intro k hk
      have hk1 : ¬ k = nid := fun hc => hk (hc ▸ List.mem_cons_self _ _)
      have hk2 : k ∉ (chain_extend protoFields protoInputs metadata wf2 nid rest).2.2.1 :=
        fun hc => hk (List.mem_cons_of_mem _ hc)
      rw [ih2 k hk2, hframe2 k hk1]
    · rw [List.length_cons, List.length_cons, ih3]
    · rw [ih4, hc2, List.length_cons]
      omega
    · intro i hi
      rcases List.mem_cons.mp hi with hi | hi
      · subst hi
        exact hfresh
      · have h0 := ih5 i hi
        have hine : ¬ i = nid := by
          intro hc
          rw [hc, hg2] at h0
          cases h0
        rw [← hframe2 i hine]
        exact h0
    · exact List.nodup_cons.mpr ⟨hnotin, ih6⟩
    · rw [ih7]
      rw [List.getLastD_cons]
    · refine ⟨?_, ?_, ih8⟩
      · rw [nodeInputValue_eq _ nid "model" newFields newInputs hgr
          (by rw [hnf, dget_dset_ne _ _ _ _ (by decide), dget_dset_self]), hni]
        exact dget_wired5_model _ _ _ _ _ _
      · rw [nodeInputValue_eq _ nid "clip" newFields newInputs hgr
          (by rw [hnf, dget_dset_ne _ _ _ _ (by decide), dget_dset_self]), hni]
        exact dget_wired5_clip _ _ _ _ _ _
    · intro i hi
      rcases List.mem_cons.mp hi with hi | hi
      · subst hi
        exact ⟨newFields, hgr, hl2⟩
      · exact ih9 i hi

/-- C1: with at least one collected LoraLoader template whose inputs carry
well-formed model/clip connection references and `N ≥ 1` resolved LoRAs,
`_apply_lora_chain` leaves exactly `N` LoraLoader nodes; the template keeps
the captured upstream model/clip pair; every further chain node's model/clip
inputs are `[previous id, 0]` / `[previous id, 1]`; and every surviving
downstream reference to the template's outputs 0/1 is rewritten to the last
chain node. -/
theorem apply_lora_chain_spec (workflow : Workflow) (tid : String)
    (tfields tinputs : List (String × PyVal)) (extras : List (String × PyVal))
    (um uc : String × Int) (loras : List String) (metadata : List MetaEntry)
    (hnd : NodupKeys workflow)
    (hcollect : collect_lora_nodes workflow = (tid, .vDict tfields) :: extras)
    (hinp : dget tfields "inputs" = some (.vDict tinputs))
    (hum : connOf (dget tinputs "model") = some um)
    (huc : connOf (dget tinputs "clip") = some uc)
    (hne : loras ≠ []) :
    ∃ (wf2 : Workflow) (applied : List (String × ℚ)) (ids : List String),
      apply_lora_chain workflow loras metadata = some (wf2, applied)
      ∧ ids.length + 1 = loras.length
      ∧ countLoraNodes wf2 = loras.length
      ∧ nodeInputValue wf2 tid "model" = some (.vList [.vStr um.1, .vInt um.2])
      ∧ nodeInputValue wf2 tid "clip" = some (.vList [.vStr uc.1, .vInt uc.2])
      ∧ (tid :: ids).Nodup
      ∧ chainLinked wf2 tid ids
      ∧ (∀ (j : Nat) (cur : String), ids[j]? = some cur →
          nodeInputValue wf2 cur "model"
              = some (.vList [.vStr ((tid :: ids)[j]?.getD ""), .vInt 0])
          ∧ nodeInputValue wf2 cur "clip"
              = some (.vList [.vStr ((tid :: ids)[j]?.getD ""), .vInt 1]))
      ∧ (∀ i ∈ tid :: ids, ∃ nf, dget wf2 i = some (.vDict nf)
          ∧ isLoraLoaderNode (.vDict nf) = true)
      ∧ (∀ nid, nid ∉ tid :: ids → nid ∉ extras.map Prod.fst →
          ∀ (nf inps : List (String × PyVal)) (k : String) (v : PyVal) (j : Int),
          dget workflow nid = some (.vDict nf) → dget nf "inputs" = some (.vDict inps) →
          dget inps k = some v → as_connection_ref v = some (tid, j) → (j = 0 ∨ j = 1) →
          nodeInputValue wf2 nid k = some (.vList [.vStr (ids.getLastD tid), .vInt j])) := by
  obtain ⟨name0, rest, rfl⟩ : ∃ a l, loras = a :: l := by
    cases loras with
    | nil => exact absurd rfl hne
    | cons a l => exact ⟨a, l, rfl⟩
  have hmemT : (tid, PyVal.vDict tfields) ∈ collect_lora_nodes workflow := by
    rw [hcollect]
    exact List.mem_cons_self _ _
  obtain ⟨hmemTw, hLoraT⟩ := (mem_collect_iff workflow _).mp hmemT
  have hgetT : dget workflow tid = some (.vDict tfields) := mem_nodup_dget hnd hmemTw
  have hkeys : (tid :: extras.map Prod.fst).Nodup := by
    have h := collect_keys_nodup workflow hnd
    rw [hcollect] at h
    simpa using h
  have htidnot : tid ∉ extras.map Prod.fst := (List.nodup_cons.mp hkeys).1
  have hexnd : (extras.map Prod.fst).Nodup := (List.nodup_cons.mp hkeys).2
  have hextras : ∀ p ∈ extras, dget workflow p.1 = some p.2 ∧ isLoraLoaderNode p.2 = true := by
    intro p hp
    have hm := (mem_collect_iff workflow p).mp (by
      rw [hcollect]
      exact List.mem_cons_of_mem _ hp)
    exact ⟨mem_nodup_dget hnd hm.1, hm.2⟩
  have hcount : countLoraNodes workflow = extras.length + 1 := by
    rw [countLora_eq_collect_length, hcollect, List.length_cons]
  have happly : apply_lora_chain workflow (name0 :: rest) metadata
      = some (redirect_connections (chain_extend tfields tinputs metadata (dset (extras.foldl (fun w p => dpop w p.1) workflow) tid (PyVal.vDict (dset tfields "inputs" (PyVal.vDict (dset (dset (dset (dset (dset tinputs "model" (PyVal.vList [PyVal.vStr um.1, PyVal.vInt um.2])) "clip" (PyVal.vList [PyVal.vStr uc.1, PyVal.vInt uc.2])) "lora_name" (PyVal.vStr name0)) "strength_model" (PyVal.vFloat (strength_for name0 metadata))) "strength_clip" (PyVal.vFloat (strength_for name0 metadata))))))) tid rest).1 (extras.map (fun p => (p.1, [((0 : Int), um), (1, uc)])) ++ [(tid, [((0 : Int), ((chain_extend tfields tinputs metadata (dset (extras.foldl (fun w p => dpop w p.1) workflow) tid (PyVal.vDict (dset tfields "inputs" (PyVal.vDict (dset (dset (dset (dset (dset tinputs "model" (PyVal.vList [PyVal.vStr um.1, PyVal.vInt um.2])) "clip" (PyVal.vList [PyVal.vStr uc.1, PyVal.vInt uc.2])) "lora_name" (PyVal.vStr name0)) "strength_model" (PyVal.vFloat (strength_for name0 metadata))) "strength_clip" (PyVal.vFloat (strength_for name0 metadata))))))) tid rest).2.1, 0)), (1, ((chain_extend tfields tinputs metadata (dset (extras.foldl (fun w p => dpop w p.1) workflow) tid (PyVal.vDict (dset tfields "inputs" (PyVal.vDict (dset (dset (dset (dset (dset tinputs "model" (PyVal.vList [PyVal.vStr um.1, PyVal.vInt um.2])) "clip" (PyVal.vList [PyVal.vStr uc.1, PyVal.vInt uc.2])) "lora_name" (PyVal.vStr name0)) "strength_model" (PyVal.vFloat (strength_for name0 metadata))) "strength_clip" (PyVal.vFloat (strength_for name0 metadata))))))) tid rest).2.1, 1))])]) (tid :: (chain_extend tfields tinputs metadata (dset (extras.foldl (fun w p => dpop w p.1) workflow) tid (PyVal.vDict (dset tfields "inputs" (PyVal.vDict (dset (dset (dset (dset (dset tinputs "model" (PyVal.vList [PyVal.vStr um.1, PyVal.vInt um.2])) "clip" (PyVal.vList [PyVal.vStr uc.1, PyVal.vInt uc.2])) "lora_name" (PyVal.vStr name0)) "strength_model" (PyVal.vFloat (strength_for name0 metadata))) "strength_clip" (PyVal.vFloat (strength_for name0 metadata))))))) tid rest).2.2.1),
          (name0, strength_for name0 metadata) :: (chain_extend tfields tinputs metadata (dset (extras.foldl (fun w p => dpop w p.1) workflow) tid (PyVal.vDict (dset tfields "inputs" (PyVal.vDict (dset (dset (dset (dset (dset tinputs "model" (PyVal.vList [PyVal.vStr um.1, PyVal.vInt um.2])) "clip" (PyVal.vList [PyVal.vStr uc.1, PyVal.vInt uc.2])) "lora_name" (PyVal.vStr name0)) "strength_model" (PyVal.vFloat (strength_for name0 metadata))) "strength_clip" (PyVal.vFloat (strength_for name0 metadata))))))) tid rest).2.2.2) := by
    simp only [apply_lora_chain, hcollect, hinp, applyChainCore, hum, huc]
  obtain ⟨cE, fE, nE, gE⟩ := foldl_dpop_spec extras workflow hnd hextras hexnd
  set wfE := (extras.foldl (fun w p => dpop w p.1) workflow) with hwfE
  have hgE_T : dget wfE tid = some (.vDict tfields) := by
    rw [fE tid htidnot]
    exact hgetT
  have cE1 : countLoraNodes wfE = 1 := by
    omega
  set newTInputs := (dset (dset (dset (dset (dset tinputs "model" (PyVal.vList [PyVal.vStr um.1, PyVal.vInt um.2])) "clip" (PyVal.vList [PyVal.vStr uc.1, PyVal.vInt uc.2])) "lora_name" (PyVal.vStr name0)) "strength_model" (PyVal.vFloat (strength_for name0 metadata))) "strength_clip" (PyVal.vFloat (strength_for name0 metadata))) with hnewT
  set tf2 := dset tfields "inputs" (PyVal.vDict newTInputs) with htf2
  set wf0 := dset wfE tid (PyVal.vDict tf2) with hwf0
  have hLtf2 : isLoraLoaderNode (.vDict tf2) = true := by
    rw [htf2, isLora_dset _ _ _ (by decide)]
    exact hLoraT
  have hnd0 : NodupKeys wf0 := by
    rw [hwf0]
    exact NodupKeys_dset _ _ _ nE
  have hg0T : dget wf0 tid = some (.vDict tf2) := by
    rw [hwf0]
    exact dget_dset_self _ _ _
  have hc0 : countLoraNodes wf0 = 1 := by
    rw [hwf0, countLora_dset_pres wfE tid _ _ hgE_T (by rw [hLtf2, hLoraT])]
    exact cE1
  have hframe0 : ∀ k, ¬ k = tid → dget wf0 k = dget wfE k := by
    intro k hk
    rw [hwf0]
    exact dget_dset_ne _ _ _ _ hk
  obtain ⟨m1, m2, m3, m4, m5, m6, m7, m8, m9⟩ :=
    chain_extend_spec tfields tinputs metadata hLoraT rest wf0 tid hnd0
  set res := chain_extend tfields tinputs metadata wf0 tid rest with hres
  set ids := res.2.2.1 with hids
  set lastid := res.2.1 with hlastid
  set mapping := extras.map (fun p => (p.1, [((0 : Int), um), (1, uc)]))
      ++ [(tid, [((0 : Int), (lastid, (0 : Int))), (1, (lastid, 1))])] with hmapping
  set keep := tid :: ids with hkeep
  set final := redirect_connections res.1 mapping keep with hfinal
  have htid_nids : tid ∉ ids := by
    intro hc
    have h0 := m5 tid hc
    rw [hg0T] at h0
    cases h0
  have hresT : dget res.1 tid = some (.vDict tf2) := by
    rw [m2 tid htid_nids]
    exact hg0T
  have htidkeep : keep.contains tid = true :=
    scontains_true (by rw [hkeep]; exact List.mem_cons_self _ _)
  have hlast_eq : lastid = ids.getLastD tid := m7
  have hcl : chainLinked final tid ids := by
    rw [hfinal]
    exact chainLinked_redirect res.1 mapping keep ids tid
      (fun i hi => by rw [hkeep]; exact List.mem_cons_of_mem _ hi) m8
  obtain ⟨hT0, hT1⟩ := rmapLookup_template extras um uc tid (lastid, 0) (lastid, 1) htidnot
  refine ⟨final, (name0, strength_for name0 metadata) :: res.2.2.2, ids, happly,
    ?_, ?_, ?_, ?_, ?_, hcl, ?_, ?_, ?_⟩
  · rw [m3, List.length_cons]
  · rw [hfinal, countLora_redirect, m4, hc0, List.length_cons]
    omega
  · rw [hfinal, nodeInputValue_redirect_skip _ _ _ _ _ htidkeep,
      nodeInputValue_eq res.1 tid "model" tf2 newTInputs hresT
        (by rw [htf2]; exact dget_dset_self _ _ _), hnewT]
    exact dget_wired5_model _ _ _ _ _ _
  · rw [hfinal, nodeInputValue_redirect_skip _ _ _ _ _ htidkeep,
      nodeInputValue_eq res.1 tid "clip" tf2 newTInputs hresT
        (by rw [htf2]; exact dget_dset_self _ _ _), hnewT]
    exact dget_wired5_clip _ _ _ _ _ _
  · exact List.nodup_cons.mpr ⟨htid_nids, m6⟩
  · intro j cur hj
    exact chainLinked_get final ids tid hcl j cur hj
  · intro i hi
    have hik : keep.contains i = true := scontains_true (by rw [hkeep]; exact hi)
    rcases List.mem_cons.mp hi with hi0 | hi1
    · subst hi0
      refine ⟨tf2, ?_, hLtf2⟩
      rw [hfinal, dget_redirect, hresT, Option.map_some', if_pos hik]
    · obtain ⟨nf, hnf1, hnf2⟩ := m9 i hi1
      refine ⟨nf, ?_, hnf2⟩
      rw [hfinal, dget_redirect, hnf1, Option.map_some', if_pos hik]
  · intro nid hnidkeep hnidex nf inps k v j hnw hninp hlook hconn hj01
    have hnidtid : ¬ nid = tid := fun hc => hnidkeep (hc ▸ List.mem_cons_self _ _)
    have hnidids : nid ∉ ids := fun hc => hnidkeep (List.mem_cons_of_mem _ hc)
    have hres_nid : dget res.1 nid = some (.vDict nf) := by
      rw [m2 nid hnidids, hframe0 nid hnidtid, fE nid hnidex]
      exact hnw
    have hskipn : keep.contains nid = false :=
      scontains_false (by rw [hkeep]; exact hnidkeep)
    rw [hfinal, nodeInputValue_redirect res.1 mapping keep nid k nf inps hskipn hres_nid hninp,
      hlook, Option.map_some']
    rcases hj01 with rfl | rfl
    · simp only [redirectValue, hconn, hT0]
      rw [hlast_eq]
    · simp only [redirectValue, hconn, hT1]
      rw [hlast_eq]

/-- Witness for C1: the demo workflow with two resolved LoRAs. -/
theorem apply_lora_chain_spec_witness :
    ∃ (wf2 : Workflow) (applied : List (String × ℚ)) (ids : List String),
      apply_lora_chain loraChainDemoWorkflow ["a.safetensors", "b.safetensors"] []
          = some (wf2, applied)
      ∧ ids.length + 1 = (["a.safetensors", "b.safetensors"] : List String).length
      ∧ countLoraNodes wf2 = (["a.safetensors", "b.safetensors"] : List String).length
      ∧ nodeInputValue wf2 "4" "model" = some (.vList [.vStr "1", .vInt 0])
      ∧ nodeInputValue wf2 "4" "clip" = some (.vList [.vStr "1", .vInt 1])
      ∧ ("4" :: ids).Nodup
      ∧ chainLinked wf2 "4" ids
      ∧ (∀ (j : Nat) (cur : String), ids[j]? = some cur →
          nodeInputValue wf2 cur "model"
              = some (.vList [.vStr (("4" :: ids)[j]?.getD ""), .vInt 0])
          ∧ nodeInputValue wf2 cur "clip"
              = some (.vList [.vStr (("4" :: ids)[j]?.getD ""), .vInt 1]))
      ∧ (∀ i ∈ "4" :: ids, ∃ nf, dget wf2 i = some (.vDict nf)
          ∧ isLoraLoaderNode (.vDict nf) = true)
      ∧ (∀ nid, nid ∉ "4" :: ids → nid ∉ ([] : List (String × PyVal)).map Prod.fst →
          ∀ (nf inps : List (String × PyVal)) (k : String) (v : PyVal) (j : Int),
          dget loraChainDemoWorkflow nid = some (.vDict nf) →
          dget nf "inputs" = some (.vDict inps) →
          dget inps k = some v → as_connection_ref v = some ("4", j) → (j = 0 ∨ j = 1) →
          nodeInputValue wf2 nid k = some (.vList [.vStr (ids.getLastD "4"), .vInt j])) :=
  apply_lora_chain_spec loraChainDemoWorkflow "4" demoTemplateFields demoTemplateInputs []
    ("1", 0) ("1", 1) ["a.safetensors", "b.safetensors"] []
    (by decide) rfl rfl rfl rfl (by decide)

/-- C2 counterexample: in the claimed generality the property fails — a
workflow whose only LoraLoader template carries no well-formed model/clip
connection references is returned unchanged by `_apply_lora_chain` with zero
LoRAs, and its LoraLoader node remains. -/
theorem apply_lora_chain_zero_loras_counterexample :
    apply_lora_chain
        [("1", .vDict [("class_type", .vStr "LoraLoader"), ("inputs", .vDict [])])] [] []
      = some ([("1", .vDict [("class_type", .vStr "LoraLoader"), ("inputs", .vDict [])])], [])
    ∧ countLoraNodes
        [("1", .vDict [("class_type", .vStr "LoraLoader"), ("inputs", .vDict [])])] = 1 :=
  ⟨rfl, rfl⟩

/-- C2 (amended): when the first collected LoraLoader template's inputs do
carry well-formed model/clip connection references, zero resolved LoRAs
remove every LoraLoader node, and every surviving node's reference to any
collected LoraLoader's outputs 0/1 is rewritten to the captured upstream
model resp. clip pair. -/
theorem apply_lora_chain_zero_loras_amended (workflow : Workflow) (tid : String)
    (tfields tinputs : List (String × PyVal)) (extras : List (String × PyVal))
    (um uc : String × Int) (metadata : List MetaEntry)
    (hnd : NodupKeys workflow)
    (hcollect : collect_lora_nodes workflow = (tid, .vDict tfields) :: extras)
    (hinp : dget tfields "inputs" = some (.vDict tinputs))
    (hum : connOf (dget tinputs "model") = some um)
    (huc : connOf (dget tinputs "clip") = some uc) :
    ∃ wf2, apply_lora_chain workflow [] metadata = some (wf2, [])
      ∧ countLoraNodes wf2 = 0
      ∧ dget wf2 tid = none
      ∧ (∀ e ∈ extras.map Prod.fst, dget wf2 e = none)
      ∧ (∀ nid, ¬ nid = tid → nid ∉ extras.map Prod.fst →
          ∀ (nf inps : List (String × PyVal)) (k : String) (v : PyVal)
            (src : String) (j : Int),
          dget workflow nid = some (.vDict nf) → dget nf "inputs" = some (.vDict inps) →
          dget inps k = some v → as_connection_ref v = some (src, j) →
          (src = tid ∨ src ∈ extras.map Prod.fst) → (j = 0 ∨ j = 1) →
          nodeInputValue wf2 nid k
            = some (if j = 0 then .vList [.vStr um.1, .vInt um.2]
                else .vList [.vStr uc.1, .vInt uc.2])) := by
  have hmemT : (tid, PyVal.vDict tfields) ∈ collect_lora_nodes workflow := by
    rw [hcollect]
    exact List.mem_cons_self _ _
  obtain ⟨hmemTw, hLoraT⟩ := (mem_collect_iff workflow _).mp hmemT
  have hgetT : dget workflow tid = some (.vDict tfields) := mem_nodup_dget hnd hmemTw
  have hkeys : (tid :: extras.map Prod.fst).Nodup := by
    have h := collect_keys_nodup workflow hnd
    rw [hcollect] at h
    simpa using h
  have htidnot : tid ∉ extras.map Prod.fst := (List.nodup_cons.mp hkeys).1
  have hexnd : (extras.map Prod.fst).Nodup := (List.nodup_cons.mp hkeys).2
  have hextras : ∀ p ∈ extras, dget workflow p.1 = some p.2 ∧ isLoraLoaderNode p.2 = true := by
    intro p hp
    have hm := (mem_collect_iff workflow p).mp (by
      rw [hcollect]
      exact List.mem_cons_of_mem _ hp)
    exact ⟨mem_nodup_dget hnd hm.1, hm.2⟩
  have hcount : countLoraNodes workflow = extras.length + 1 := by
    rw [countLora_eq_collect_length, hcollect, List.length_cons]
  have happly : apply_lora_chain workflow [] metadata
      = some (redirect_connections (dpop (extras.foldl (fun w p => dpop w p.1) workflow) tid) (extras.map (fun p => (p.1, [((0 : Int), um), (1, uc)])) ++ [(tid, [((0 : Int), um), (1, uc)])]) [], []) := by
    simp only [apply_lora_chain, hcollect, hinp, applyChainCore, hum, huc]
  obtain ⟨cE, fE, nE, gE⟩ := foldl_dpop_spec extras workflow hnd hextras hexnd
  set wfE := (extras.foldl (fun w p => dpop w p.1) workflow) with hwfE
  have hgE_T : dget wfE tid = some (.vDict tfields) := by
    rw [fE tid htidnot]
    exact hgetT
  have cE1 : countLoraNodes wfE = 1 := by
    omega
  set wfT := dpop wfE tid with hwfT
  set mapping := extras.map (fun p => (p.1, [((0 : Int), um), (1, uc)]))
      ++ [(tid, [((0 : Int), um), (1, uc)])] with hmapping
  set final := redirect_connections wfT mapping [] with hfinal
  obtain ⟨hT0, hT1⟩ := rmapLookup_template extras um uc tid um uc htidnot
  refine ⟨final, happly, ?_, ?_, ?_, ?_⟩
  · rw [hfinal, countLora_redirect, hwfT, countLora_dpop wfE tid _ hgE_T hLoraT, cE1]
  · rw [hfinal, dget_redirect, hwfT, dget_dpop_self wfE tid nE]
    rfl
  · intro e he
    obtain ⟨p, hp, rfl⟩ := List.mem_map.mp he
    have hnep : ¬ p.1 = tid := fun hc => htidnot (hc ▸ List.mem_map_of_mem Prod.fst hp)
    rw [hfinal, dget_redirect, hwfT, dget_dpop_ne wfE tid p.1 hnep, gE p hp]
    rfl
  · intro nid hnidtid hnidex nf inps k v src j hnw hninp hlook hconn hsrc hj01
    have hwT_nid : dget wfT nid = some (.vDict nf) := by
      rw [hwfT, dget_dpop_ne wfE tid nid hnidtid, fE nid hnidex]
      exact hnw
    have hskipn : ([] : List String).contains nid = false := rfl
    rw [hfinal, nodeInputValue_redirect wfT mapping [] nid k nf inps hskipn hwT_nid hninp,
      hlook, Option.map_some']
    rcases hsrc with rfl | hsrcex
    · rcases hj01 with rfl | rfl
      · rw [if_pos rfl]
        simp only [redirectValue, hconn, hT0]
      · rw [if_neg (by decide)]
        simp only [redirectValue, hconn, hT1]
    · obtain ⟨p, hp, rfl⟩ := List.mem_map.mp hsrcex
      have hpd : dget extras p.1 = some p.2 := mem_nodup_dget hexnd hp
      obtain ⟨hE0, hE1⟩ := rmapLookup_extra extras um uc tid p.1 um uc p.2 hpd
      rcases hj01 with rfl | rfl
      · rw [if_pos rfl]
        simp only [redirectValue, hconn, hE0]
      · rw [if_neg (by decide)]
        simp only [redirectValue, hconn, hE1]

/-- Witness for the amended C2: the demo workflow with zero LoRAs. -/
theorem apply_lora_chain_zero_loras_amended_witness :
    ∃ wf2, apply_lora_chain loraChainDemoWorkflow [] [] = some (wf2, [])
      ∧ countLoraNodes wf2 = 0
      ∧ dget wf2 "4" = none
      ∧ (∀ e ∈ ([] : List (String × PyVal)).map Prod.fst, dget wf2 e = none)
      ∧ (∀ nid, ¬ nid = "4" → nid ∉ ([] : List (String × PyVal)).map Prod.fst →
          ∀ (nf inps : List (String × PyVal)) (k : String) (v : PyVal)
            (src : String) (j : Int),
          dget loraChainDemoWorkflow nid = some (.vDict nf) →
          dget nf "inputs" = some (.vDict inps) →
          dget inps k = some v → as_connection_ref v = some (src, j) →
          (src = "4" ∨ src ∈ ([] : List (String × PyVal)).map Prod.fst) → (j = 0 ∨ j = 1) →
          nodeInputValue wf2 nid k
            = some (if j = 0 then .vList [.vStr "1", .vInt 0]
                else .vList [.vStr "1", .vInt 1])) :=
  apply_lora_chain_zero_loras_amended loraChainDemoWorkflow "4" demoTemplateFields
    demoTemplateInputs [] ("1", 0) ("1", 1) []
    (by decide) rfl rfl rfl rfl

end ChainLemmas

/-- C5: in every `_execute` run the status callbacks carry the heartbeat
sequence numbers `1, 2, 3, …` in emission order (strictly increasing,
starting at 1 on the first emission), and at most one terminal callback is
posted — exactly one when the outcome's terminal endpoint is configured —
strictly after every status callback of the job. -/
theorem callback_protocol_spec (cfg : CbCfg) (o : ExecOutcome) :
    statusSeqs (execTrace cfg o) = List.range' 1 (statusSeqs (execTrace cfg o)).length
    ∧ ((execTrace cfg o).dropWhile isStatusEv).all isTerminalEv = true
    ∧ ((execTrace cfg o).dropWhile isStatusEv).length ≤ 1
    ∧ (terminalConfigured cfg o = true →
        ((execTrace cfg o).dropWhile isStatusEv).length = 1) := by
  obtain ⟨hs, hc, hf⟩ := cfg
  cases o with
  | cancelled hb =>
    cases hb <;> cases hs <;> cases hc <;> cases hf <;> decide
  | preQueuedFailure => cases hs <;> cases hc <;> cases hf <;> decide
  | submitFailure => cases hs <;> cases hc <;> cases hf <;> decide
  | waitFailure => cases hs <;> cases hc <;> cases hf <;> decide
  | uploadFailure => cases hs <;> cases hc <;> cases hf <;> decide
  | success => cases hs <;> cases hc <;> cases hf <;> decide

/-- The cache file of the base model is removed iff the flag is on, the
strategy is not persistent and the file was downloaded this run. -/
theorem cleanup_base_model_cache (flags : CleanupFlags) (m : CleanupAsset) :
    (cleanup_base_model flags m).1 = true ↔
      flags.delete_downloaded_models = true ∧ m.cacheStrategy ≠ "persistent" ∧
        m.downloaded = true := by
  unfold cleanup_base_model
  by_cases hf : flags.delete_downloaded_models <;>
    simp [hf, Bool.and_eq_true, bne_iff_ne, and_assoc]

/-- The visible link of the base model is removed iff the flag is on, the
strategy is not persistent, the link was created this run and the path is
still a symlink. -/
theorem cleanup_base_model_link (flags : CleanupFlags) (m : CleanupAsset) :
    (cleanup_base_model flags m).2 = true ↔
      flags.delete_downloaded_models = true ∧ m.cacheStrategy ≠ "persistent" ∧
        m.link_created = true ∧ m.link_is_symlink = true := by
  unfold cleanup_base_model
  by_cases hf : flags.delete_downloaded_models <;>
    simp [hf, Bool.and_eq_true, bne_iff_ne, and_assoc]

/-- A LoRA's cache file is removed iff the flag is on, the strategy is not
persistent and the file was downloaded this run. -/
theorem cleanup_lora_entry_cache (flags : CleanupFlags) (e : CleanupAsset) :
    (cleanup_lora_entry flags e).1 = true ↔
      flags.delete_downloaded_loras = true ∧ e.cacheStrategy ≠ "persistent" ∧
        e.downloaded = true := by
  unfold cleanup_lora_entry
  by_cases hf : flags.delete_downloaded_loras <;>
    by_cases hs : e.cacheStrategy = "persistent" <;> simp [hf, hs]

/-- A LoRA's visible link is removed iff the flag is on, the strategy is not
persistent, the link was created this run and the path is still a symlink. -/
theorem cleanup_lora_entry_link (flags : CleanupFlags) (e : CleanupAsset) :
    (cleanup_lora_entry flags e).2 = true ↔
      flags.delete_downloaded_loras = true ∧ e.cacheStrategy ≠ "persistent" ∧
        e.link_created = true ∧ e.link_is_symlink = true := by
  unfold cleanup_lora_entry
  by_cases hf : flags.delete_downloaded_loras <;>
    by_cases hs : e.cacheStrategy = "persistent" <;>
      simp [hf, hs, Bool.and_eq_true, and_assoc]

/-! ### Claim theorems (first group) -/

/-- C3: for every resolved asset with `cacheStrategy = "persistent"`, the
post-terminal cleanup removes neither the cache file nor the visible link,
whatever the configuration flags and the `downloaded` / `link_created` run
flags; and any removal `_cleanup` does decide on is licensed by that file's
own cleanup condition. -/
theorem cleanup_persistent_spec (flags : CleanupFlags) (base : Option CleanupAsset)
    (loras : List CleanupAsset) :
    (∀ m, base = some m → m.cacheStrategy = "persistent" →
      (cleanup flags base loras).1 = some (false, false))
    ∧ (∀ (i : Nat) (e : CleanupAsset), loras[i]? = some e → e.cacheStrategy = "persistent" →
      (cleanup flags base loras).2[i]? = some (false, false))
    ∧ (∀ m cr lr, base = some m → (cleanup flags base loras).1 = some (cr, lr) →
        (cr = true → flags.delete_downloaded_models = true ∧ m.cacheStrategy ≠ "persistent" ∧
          m.downloaded = true)
        ∧ (lr = true → flags.delete_downloaded_models = true ∧ m.cacheStrategy ≠ "persistent" ∧
          m.link_created = true ∧ m.link_is_symlink = true))
    ∧ (∀ (i : Nat) (e : CleanupAsset) (cr lr : Bool), loras[i]? = some e →
        (cleanup flags base loras).2[i]? = some (cr, lr) →
        (cr = true → flags.delete_downloaded_loras = true ∧ e.cacheStrategy ≠ "persistent" ∧
          e.downloaded = true)
        ∧ (lr = true → flags.delete_downloaded_loras = true ∧ e.cacheStrategy ≠ "persistent" ∧
          e.link_created = true ∧ e.link_is_symlink = true)) := by
  refine ⟨?_, ?_, ?_, ?_⟩
  · rintro m rfl hper
    simp [cleanup, cleanup_base_model, hper]
  · intro i e hget hper
    simp only [cleanup, List.getElem?_map, hget, Option.map_some]
    simp [cleanup_lora_entry, hper]
  · rintro m cr lr rfl hr
    have hm : cleanup_base_model flags m = (cr, lr) := by
      simpa [cleanup] using hr
    constructor
    · intro hcr
      exact (cleanup_base_model_cache flags m).mp (by rw [hm]; exact hcr)
    · intro hlr
      exact (cleanup_base_model_link flags m).mp (by rw [hm]; exact hlr)
  · intro i e cr lr hget hr
    have he : cleanup_lora_entry flags e = (cr, lr) := by
      simpa [cleanup, List.getElem?_map, hget] using hr
    constructor
    · intro hcr
      exact (cleanup_lora_entry_cache flags e).mp (by rw [he]; exact hcr)
    · intro hlr
      exact (cleanup_lora_entry_link flags e).mp (by rw [he]; exact hlr)

/-- C6: every resolved seed lies in `[0, 10^9)`; a finite numeric seed resolves
to `|int(seed)| mod 10^9`, and an absent (or non-numeric, or non-finite) seed
is replaced by the cryptographic draw, itself below `10^9`. -/
theorem normalize_seed_value_spec (v : SeedValue) (draw : Fin 1000000000) :
    normalize_seed_value v draw < 1000000000
    ∧ (∀ n, v = .intVal n → normalize_seed_value v draw = n.natAbs % 1000000000)
    ∧ (∀ q, v = .floatVal q → normalize_seed_value v draw = (ratTrunc q).natAbs % 1000000000)
    ∧ (v = .absent → normalize_seed_value v draw = generate_seed draw
        ∧ generate_seed draw < 1000000000) := by
  refine ⟨?_, ?_, ?_, ?_⟩
  · cases v
    case intVal n => exact Nat.mod_lt _ (by norm_num)
    case boolVal b => exact Nat.mod_lt _ (by norm_num)
    case floatVal q => exact Nat.mod_lt _ (by norm_num)
    case floatNonFinite => exact draw.isLt
    case absent => exact draw.isLt
    case nonNumeric => exact draw.isLt
  · rintro n rfl; rfl
  · rintro q rfl; rfl
  · rintro rfl; exact ⟨rfl, draw.isLt⟩

/-- On a history whose `status.node_errors` is a non-empty string longer than
4096 characters, `_extract_node_errors` returns `{"message": text[:4093]}`. -/
theorem extract_node_errors_long_string (s : String) (hne : s.data.isEmpty = false)
    (hlen : 4096 < pyLen s) :
    extract_node_errors (.vDict [("status", .vDict [("node_errors", .vStr s)])])
      = some (.vDict [("message", .vStr (pyTake s 4093))]) := by
  unfold extract_node_errors
  simp [dget, pyTruthy, pyStr, hne, hlen]

/-- C8 (code probe): on a history whose `status.node_errors` payload is a
string of 4097 characters, `_extract_node_errors` attaches
`{"message": text}` where `text` is exactly the first 4093 characters of the
payload and carries no truncation marker — the code cuts at 4093 via the
vestigial `f"{text[:4093]}"` instead of truncating at 4096 and appending the
documented `…` marker. -/
theorem extract_node_errors_truncation_eval :
    extract_node_errors oversizedNodeErrorHistory
      = some (.vDict [("message", .vStr (String.mk (List.replicate 4093 'x')))])
    ∧ (String.mk (List.replicate 4093 'x')).data.length = 4093
    ∧ ('…' ∈ (String.mk (List.replicate 4093 'x')).data → '…' = 'x') := by
  refine ⟨?_, ?_, fun hmem => List.eq_of_mem_replicate hmem⟩
  · have hne : (String.mk (List.replicate 4097 'x')).data.isEmpty = false := by
      rw [show (String.mk (List.replicate 4097 'x')).data = List.replicate 4097 'x' from rfl,
        List.isEmpty_eq_false, Ne, List.replicate_eq_nil_iff]
      norm_num
    have hlen : 4096 < pyLen (String.mk (List.replicate 4097 'x')) := by
      show 4096 < (List.replicate 4097 'x').length
      rw [List.length_replicate]
      norm_num
    have h := extract_node_errors_long_string (String.mk (List.replicate 4097 'x')) hne hlen
    have ht : pyTake (String.mk (List.replicate 4097 'x')) 4093
        = String.mk (List.replicate 4093 'x') := by
      show String.mk ((List.replicate 4097 'x').take 4093) = String.mk (List.replicate 4093 'x')
      rw [List.take_replicate, Nat.min_eq_left (by norm_num)]
    rw [oversizedNodeErrorHistory, h, ht]
  · rw [show (String.mk (List.replicate 4093 'x')).data = List.replicate 4093 'x' from rfl,
      List.length_replicate]

/-- C9 (code probe): `extract_output_files` walks `outputs.<node>.images[]`,
honours the `expected_node_ids` filter, defaults `subfolder` to `""` and
`type` to `"output"` — but each returned tuple has three components,
`(filename, subfolder, type)`, with no `node_id` component, while the spec
(and the caller `GPUAgent._upload_outputs`, which reads `image.node_id`)
requires the node id in each record. -/
theorem extract_output_files_tuple_shape :
    extract_output_files singleImageHistory none
      = [(.vStr "img.png", .vStr "", .vStr "output")]
    ∧ extract_output_files singleImageHistory (some ["9"])
      = [(.vStr "img.png", .vStr "", .vStr "output")]
    ∧ extract_output_files singleImageHistory (some ["7"]) = [] :=
  ⟨rfl, rfl, rfl⟩

/-- C10: `request_cancel` with no active handle, an empty token or a
non-matching token returns `False` and leaves the agent state unchanged; a
matching call returns `True`, and only the first matching call sets the
signal, appends the `cancel_requested` log event and emits the "cancelling"
heartbeat (bumping the heartbeat counter exactly when a status callback is
configured) — every further matching call returns `True` and changes
nothing. -/
theorem request_cancel_spec (s : CancelAgentState) (token : String) :
    (s.handle = none → request_cancel s token = (false, s))
    ∧ (token = "" → request_cancel s token = (false, s))
    ∧ (∀ h, s.handle = some h → h.token ≠ token → request_cancel s token = (false, s))
    ∧ (∀ h, s.handle = some h → h.token = token → token ≠ "" →
        (request_cancel s token).1 = true
        ∧ (h.event_set = true → request_cancel s token = (true, s))
        ∧ (h.event_set = false →
            (request_cancel s token).2.handle = some { token := h.token, event_set := true }
            ∧ (request_cancel s token).2.log = s.log ++ ["cancel_requested"]
            ∧ (s.has_status_cb = true →
                (request_cancel s token).2.heartbeat_seq = s.heartbeat_seq + 1
                ∧ (request_cancel s token).2.emitted
                    = s.emitted ++ [("cancelling", s.heartbeat_seq + 1)])
            ∧ (s.has_status_cb = false →
                (request_cancel s token).2.heartbeat_seq = s.heartbeat_seq
                ∧ (request_cancel s token).2.emitted = s.emitted)
            ∧ request_cancel (request_cancel s token).2 token
                = (true, (request_cancel s token).2))) := by
  refine ⟨?_, ?_, ?_, ?_⟩
  · intro hnone
    simp [request_cancel, hnone]
  · intro hempty
    cases hs : s.handle with
    | none => simp [request_cancel, hs]
    | some h => simp [request_cancel, hs, hempty]
  · intro h hs hne
    by_cases hempty : token = ""
    · simp [request_cancel, hs, hempty]
    · simp [request_cancel, hs, hempty, hne]
  · intro h hs hm hne
    cases hset : h.event_set with
    | true =>
      have hr : request_cancel s token = (true, s) := by
        simp [request_cancel, hs, hne, hm, hset]
      refine ⟨by rw [hr], fun _ => hr, fun hfalse => absurd hfalse (by simp)⟩
    | false =>
      have hr : request_cancel s token =
          (true, emit_cancelling_status
            { s with handle := some { token := h.token, event_set := true },
                     log := s.log ++ ["cancel_requested"] }) := by
        simp [request_cancel, hs, hne, hm, hset]
      refine ⟨by rw [hr], fun htrue => absurd htrue (by simp), fun _ => ?_⟩
      by_cases hcb : s.has_status_cb
      · refine ⟨?_, ?_, ?_, ?_, ?_⟩ <;>
          simp [hr, hs, hm, hne, hset, hcb, emit_cancelling_status, request_cancel]
      · refine ⟨?_, ?_, ?_, ?_, ?_⟩ <;>
          simp [hr, hs, hm, hne, hset, hcb, emit_cancelling_status, request_cancel]

end VisionSuit
